import Mathlib

/-!
Shallow embedding of the IhgedasBlockchain ledger engine (Rust), for checking
its natural-language specification.

Modelling conventions:
* Rust `Vec<u8>` is `List Nat` (each entry a byte value), `String` is `String`,
  `i32`/`i64` are `Int`, `u128` timestamps are `Nat`.
* Cryptographic primitives (SHA-256, RIPEMD-160, Ed25519) are external crates,
  not code of this repository; they are modelled by executable symbolic
  stand-ins that keep the properties the engine relies on (determinism, and
  for Ed25519 that a signature verifies exactly against the message it signed
  and the public key matching the signing secret key).  The SHA-256 model
  truncates the digest state so that proof-of-work mining terminates quickly
  on concrete inputs.
* The embedded `sled` stores are association lists; the UTXO store keeps its
  entries sorted by key, matching sled's ordered iteration.
* Panics (`unwrap`/`expect`/out-of-range indexing) are modelled as the
  `EngineError.panicked` error; wall-clock reads and the unbounded mining loop
  take explicit `timestamp`/`fuel` parameters.
-/

/-- Byte strings. -/
abbrev Bytes := List Nat

/-- The bytes of a Lean string, modelling Rust `str::as_bytes`. -/
def strBytes (s : String) : Bytes := s.data.map Char.toNat

/-- Symbolic compression core shared by the hash models: a fold over the input
bytes into a 20-bit state.  Stands in for the internal state of SHA-256. -/
def polyHash (data : Bytes) : Nat :=
  data.foldl (fun a b => (a * 131 + b + 11) % 1048576) 7

/-- Hex digit characters. -/
def hexDigitChar (n : Nat) : Char :=
  match n with
  | 0 => '0' | 1 => '1' | 2 => '2' | 3 => '3'
  | 4 => '4' | 5 => '5' | 6 => '6' | 7 => '7'
  | 8 => '8' | 9 => '9' | 10 => 'a' | 11 => 'b'
  | 12 => 'c' | 13 => 'd' | 14 => 'e' | _ => 'f'

/-- `n` rendered as exactly `w` hex digits, most significant first. -/
def hexPad (w : Nat) (n : Nat) : String :=
  String.mk ((List.range w).map (fun i => hexDigitChar (n / 16 ^ (w - 1 - i) % 16)))

/-- The output whitening of the hash model: a bijection on the 20-bit state,
so that consecutive inputs give unrelated digests (as a real hash would). -/
def mixState (s : Nat) : Nat := (s * 377737 + 121) % 1048576

/-- Models `Sha256::result_str()`: the hex form of the digest.  The model
digest keeps 20 bits of state rendered into 8 hex characters (so the top two
characters are always zero and a proof-of-work search over nonces succeeds
after a couple of dozen tries at most). -/
def sha256hex (data : Bytes) : String := hexPad 8 (mixState (polyHash data))

/-- Models `Sha256::result()`: the raw digest bytes (truncated model). -/
def sha256bytes (data : Bytes) : Bytes :=
  (List.range 4).map (fun i => mixState (polyHash data) / 256 ^ i % 256)

/-- Models `hash_pub_key` (RIPEMD160 of SHA256, resized to 20 bytes) from
`src/wallet/mod.rs` as a symbolic 20-byte digest. -/
def hashPubKey (pubKey : Bytes) : Bytes :=
  (List.range 20).map (fun i => (polyHash pubKey + 31 * i + 7) % 256)

/-- Models `ed25519` signature bytes for message `msg` under public key `pk`:
the perfect-cryptography encoding a verifier accepts exactly for this
message/key pair. -/
def edSigData (msg : Bytes) (pk : Bytes) : Bytes := 99 :: (msg ++ pk)

/-- Models `ed25519::keypair(seed)`: the 64-byte secret is the seed followed by
the 32-byte public key derived from it. -/
def ed25519Keypair (seed : Bytes) : Bytes × Bytes :=
  (seed ++ seed.map (fun b => (b * 7 + 3) % 256), seed.map (fun b => (b * 7 + 3) % 256))

/-- The public key embedded in a 64-byte Ed25519 secret key. -/
def ed25519PubOf (secret : Bytes) : Bytes := secret.drop 32

/-- Models `ed25519::signature(msg, secret)`. -/
def ed25519Signature (msg : Bytes) (secret : Bytes) : Bytes :=
  edSigData msg (ed25519PubOf secret)

/-- Models `ed25519::verify(msg, pk, sig)`. -/
def ed25519Verify (msg : Bytes) (pk : Bytes) (sig : Bytes) : Bool :=
  sig == edSigData msg pk

/-- Models `Address::decode(addr).unwrap().body`: the 20-byte public-key hash
carried by a textual address.  The codec is modelled as the bijection that
stores the body bytes as the characters of the address text. -/
def addrDecodeBody (addr : String) : Bytes := strBytes addr

/-- Models `Address::encode` on a body (inverse of `addrDecodeBody`). -/
def addrEncode (body : Bytes) : String := String.mk (body.map Char.ofNat)

/-! ## Serialization (models `bincode::serialize`) -/

/-- A length-prefixed byte sequence. -/
def serBytesField (b : Bytes) : Bytes := b.length :: b

/-- A length-prefixed string. -/
def serStringField (s : String) : Bytes := s.length :: strBytes s

/-- An `i32`/`i64` value, sign tagged. -/
def serIntField (i : Int) : Bytes := if i < 0 then [1, (-i).toNat] else [0, i.toNat]

/-- A `u128`/`usize` value. -/
def serNatField (n : Nat) : Bytes := [n]

/-! ## `src/tx/mod.rs`: transaction inputs and outputs -/

/-- `TXInput` from `src/tx/mod.rs`. -/
structure TXInput where
  txid : String
  vout : Int
  signature : Bytes
  pub_key : Bytes
deriving Repr, DecidableEq, Inhabited

/-- `TXOutput` from `src/tx/mod.rs`. -/
structure TXOutput where
  value : Int
  pub_key_hash : Bytes
deriving Repr, DecidableEq, Inhabited

/-- `TXOutputs` from `src/tx/mod.rs`. -/
structure TXOutputs where
  outputs : List TXOutput
deriving Repr, DecidableEq, Inhabited

/-- `TXOutput::new(value, addr)`: build an output locked (via the address
codec) to the public-key hash carried by `addr`. -/
def TXOutput.new (value : Int) (addr : String) : TXOutput :=
  { value := value, pub_key_hash := addrDecodeBody addr }

/-- `TXOutput::is_locked_with_key`. -/
def TXOutput.is_locked_with_key (o : TXOutput) (pubKeyHash : Bytes) : Bool :=
  o.pub_key_hash == pubKeyHash

/-- `TXOutput::can_be_unlocked_with`. -/
def TXOutput.can_be_unlocked_with (o : TXOutput) (unlockingData : Bytes) : Bool :=
  o.pub_key_hash == unlockingData

/-! ## `src/transaction/mod.rs`: the transaction engine -/

/-- `Transaction` from `src/transaction/mod.rs`. -/
structure Transaction where
  id : String
  vin : List TXInput
  vout : List TXOutput
deriving Repr, DecidableEq, Inhabited

/-- Serialization of an input, field by field in declaration order. -/
def serTXInput (v : TXInput) : Bytes :=
  serStringField v.txid ++ serIntField v.vout ++ serBytesField v.signature
    ++ serBytesField v.pub_key

/-- Serialization of an output, field by field in declaration order. -/
def serTXOutput (o : TXOutput) : Bytes :=
  serIntField o.value ++ serBytesField o.pub_key_hash

/-- Serialization of a transaction, field by field in declaration order. -/
def serTransaction (tx : Transaction) : Bytes :=
  serStringField tx.id
    ++ serNatField tx.vin.length ++ (tx.vin.map serTXInput).flatten
    ++ serNatField tx.vout.length ++ (tx.vout.map serTXOutput).flatten

/-- `Transaction::hash(&mut self)`: clears the receiver's `id`, serializes the
cleared transaction and returns the hex SHA-256 digest.  The pair is
(returned digest, state of the receiver after the call). -/
def Transaction.hash (tx : Transaction) : String × Transaction :=
  let cleared : Transaction := { tx with id := "" }
  (sha256hex (serTransaction cleared), cleared)

/-- The digest `Transaction::hash` returns (call sites use `tx.id = tx.hash()?`). -/
def txHashOf (tx : Transaction) : String := (tx.hash).1

/-- `Transaction::is_coinbase`. -/
def Transaction.is_coinbase (tx : Transaction) : Bool :=
  tx.vin.length == 1
    && (tx.vin.headD default).txid == ""
    && (tx.vin.headD default).vout == -1

/-- `Transaction::new_coinbase(to, data)`. -/
def Transaction.new_coinbase (toAddr : String) (data : String) : Transaction :=
  let data1 := if data = "" then "Reward to " ++ toAddr else data
  let tx : Transaction :=
    { id := ""
      vin := [{ txid := "", vout := -1, signature := [], pub_key := strBytes data1 }]
      vout := [TXOutput.new 100 toAddr] }
  { tx with id := txHashOf tx }

/-- The trimmed form of one input (`signature` and `pub_key` cleared). -/
def trimInput (v : TXInput) : TXInput :=
  { txid := v.txid, vout := v.vout, signature := [], pub_key := [] }

/-- `Transaction::trim_copy`. -/
def Transaction.trim_copy (tx : Transaction) : Transaction :=
  { id := tx.id
    vin := tx.vin.map trimInput
    vout := tx.vout.map (fun o => { value := o.value, pub_key_hash := o.pub_key_hash }) }

/-- The error values the engine surfaces.  `crate::error::Result` itself is not
under `src/`; the constructors stand for the `format_err!` messages created in
`src/`, plus `panicked` for `unwrap`/`expect`/indexing panics, `outOfFuel` for
an exhausted mining-loop bound, and `chainMissing` for the error the
specification's §7 assigns to opening a store with no `LAST` entry. -/
inductive EngineError where
  | sourceWalletNotFound
  | destinationWalletNotFound
  | insufficientFunds (balance : Int)
  | prevTxNotCorrect
  | txNotFound
  | chainMissing
  | panicked
  | outOfFuel
deriving Repr, DecidableEq, Inhabited

/-- Lookup in an association-list map keyed by strings. -/
def mapGet {α : Type} (m : List (String × α)) (k : String) : Option α :=
  (m.find? (fun p => p.1 == k)).map (fun p => p.2)

/-- Insert-or-replace in an association-list map (Rust `HashMap::insert`). -/
def mapInsert {α : Type} (m : List (String × α)) (k : String) (v : α) : List (String × α) :=
  match m with
  | [] => [(k, v)]
  | (k1, v1) :: rest => if k1 = k then (k, v) :: rest else (k1, v1) :: mapInsert rest k v

/-- The loop at the top of `Transaction::sign`/`Transaction::verify`: each
input's previous transaction is fetched (`unwrap` panics when absent) and must
have a non-empty id. -/
def checkPrevTxs (prevTxs : List (String × Transaction)) : List TXInput → Except EngineError Unit
  | [] => .ok ()
  | v :: rest =>
    match mapGet prevTxs v.txid with
    | none => .error .panicked
    | some p => if p.id = "" then .error .prevTxNotCorrect else checkPrevTxs prevTxs rest

/-- `prev_tx.vout[input.vout as usize]`: an i32 cast to usize; a negative value
wraps to a huge index, so it panics just like an out-of-range index. -/
def prevOutputAt (prevTx : Transaction) (vout : Int) : Option TXOutput :=
  if vout < 0 then none else prevTx.vout.get? vout.toNat

/-- The per-input loop of `Transaction::sign`: walks the index list carrying
the trimmed copy `txCopy` (whose `id` it overwrites each round) and the
original transaction `self` (whose input signatures it fills in). -/
def signLoop (privateKey : Bytes) (prevTxs : List (String × Transaction)) :
    List Nat → Transaction → Transaction → Except EngineError Transaction
  | [], _, self => .ok self
  | i :: rest, txCopy, self =>
    match txCopy.vin.get? i with
    | none => .error .panicked
    | some cv =>
      match mapGet prevTxs cv.txid with
      | none => .error .panicked
      | some prevTx =>
        match prevOutputAt prevTx cv.vout with
        | none => .error .panicked
        | some out =>
          let c1 : Transaction :=
            { txCopy with vin := txCopy.vin.set i { cv with signature := [], pub_key := out.pub_key_hash } }
          let newId := txHashOf c1
          let c3 : Transaction :=
            { c1 with id := newId, vin := c1.vin.set i { cv with signature := [], pub_key := [] } }
          match self.vin.get? i with
          | none => .error .panicked
          | some sv =>
            let sig := ed25519Signature (strBytes newId) privateKey
            signLoop privateKey prevTxs rest c3
              { self with vin := self.vin.set i { sv with signature := sig } }

/-- `Transaction::sign(&mut self, private_key, prev_txs)`; returns the signed
transaction (the receiver after the call). -/
def Transaction.sign (tx : Transaction) (privateKey : Bytes)
    (prevTxs : List (String × Transaction)) : Except EngineError Transaction :=
  if tx.is_coinbase then .ok tx
  else do
    checkPrevTxs prevTxs tx.vin
    signLoop privateKey prevTxs (List.range tx.trim_copy.vin.length) tx.trim_copy tx

/-- The per-input loop of `Transaction::verify`: rebuilds each input's signing
preimage on the trimmed copy and checks the stored signature against the
stored public key. -/
def verifyLoop (prevTxs : List (String × Transaction)) :
    List Nat → Transaction → Transaction → Except EngineError Bool
  | [], _, _ => .ok true
  | i :: rest, txCopy, self =>
    match self.vin.get? i with
    | none => .error .panicked
    | some sv =>
      match mapGet prevTxs sv.txid with
      | none => .error .panicked
      | some prevTx =>
        match prevOutputAt prevTx sv.vout with
        | none => .error .panicked
        | some out =>
          match txCopy.vin.get? i with
          | none => .error .panicked
          | some cv =>
            let c1 : Transaction :=
              { txCopy with vin := txCopy.vin.set i { cv with signature := [], pub_key := out.pub_key_hash } }
            let newId := txHashOf c1
            let c3 : Transaction :=
              { c1 with id := newId, vin := c1.vin.set i { cv with signature := [], pub_key := [] } }
            if ed25519Verify (strBytes newId) sv.pub_key sv.signature then
              verifyLoop prevTxs rest c3 self
            else .ok false

/-- `Transaction::verify(&mut self, prev_txs)`. -/
def Transaction.verify (tx : Transaction)
    (prevTxs : List (String × Transaction)) : Except EngineError Bool :=
  if tx.is_coinbase then .ok true
  else do
    checkPrevTxs prevTxs tx.vin
    verifyLoop prevTxs (List.range tx.vin.length) tx.trim_copy tx

/-! ## `src/models/block.rs` -/

/-- The proof-of-work difficulty constant `TARGET_HEXT`. -/
def TARGET_HEXT : Nat := 4

/-- `Block` from `src/models/block.rs`. -/
structure Block where
  timestamp : Nat
  transactions : List Transaction
  prev_block_hash : String
  hash : String
  height : Int
  nonce : Int
deriving Repr, DecidableEq, Inhabited

/-- `MergeTX::merge`: SHA-256 of the concatenated children, raw bytes. -/
def mergeTX (left right : Bytes) : Bytes := sha256bytes (left ++ right)

/-- One node of the complete binary Merkle tree built by
`CBMT::build_merkle_tree` (the `merkle_cbt` crate): with `n` leaves the nodes
are indexed `0 .. 2n-2`, the last `n` being the leaves in order and node `i`
(for `i + 1 < n`) merging nodes `2i+1` and `2i+2`.  The recursion is bounded
by `fuel`, which `cbmtRoot` sets above the tree height. -/
def cbmtNode (leaves : List Bytes) : Nat → Nat → Bytes
  | 0, _ => []
  | fuel + 1, i =>
    if i + 1 < leaves.length then
      mergeTX (cbmtNode leaves fuel (2 * i + 1)) (cbmtNode leaves fuel (2 * i + 2))
    else
      leaves.getD (i + 1 - leaves.length) []

/-- The root of the complete binary Merkle tree over the given leaves. -/
def cbmtRoot (leaves : List Bytes) : Bytes :=
  if leaves.isEmpty then [] else cbmtNode leaves (2 * leaves.length) 0

/-- `Block::hash_transactions`: the Merkle root over each transaction's hex
hash, taken as bytes. -/
def Block.hash_transactions (b : Block) : Bytes :=
  cbmtRoot (b.transactions.map (fun tx => strBytes (txHashOf tx)))

/-- `Block::prepare_hash_data`: serialization of
`(prev_block_hash, merkle_root, timestamp, TARGET_HEXT, nonce)`. -/
def Block.prepare_hash_data (b : Block) : Bytes :=
  serStringField b.prev_block_hash ++ serBytesField b.hash_transactions
    ++ serNatField b.timestamp ++ serNatField TARGET_HEXT ++ serIntField b.nonce

/-- `Block::generate_hash`. -/
def Block.generate_hash (b : Block) : String := sha256hex b.prepare_hash_data

/-- The difficulty target string `"0".repeat(TARGET_HEXT)`. -/
def targetZeros : String := String.mk (List.replicate TARGET_HEXT '0')

/-- `str::starts_with`, computed structurally on the character lists. -/
def strStartsWith (s p : String) : Bool := p.data.isPrefixOf s.data

/-- `Block::validate`: the recomputed hash starts with `TARGET_HEXT` zeros. -/
def Block.validate (b : Block) : Bool := strStartsWith b.generate_hash targetZeros

/-- `Block::run_proof_of_work`: the unbounded mining loop, bounded here by
`fuel` (the Rust loop has no bound; any terminating run corresponds to a
sufficiently large `fuel`). -/
def runProofOfWork (b : Block) (fuel : Nat) : Option Block :=
  match fuel with
  | 0 => none
  | fuel + 1 =>
    if b.validate then some { b with hash := b.generate_hash }
    else runProofOfWork { b with nonce := b.nonce + 1 } fuel

/-- `Block::new(data, prev_block_hash, height)`; the wall-clock timestamp is an
explicit parameter. -/
def Block.new (data : List Transaction) (prevBlockHash : String) (height : Int)
    (timestamp : Nat) (fuel : Nat) : Option Block :=
  runProofOfWork
    { timestamp := timestamp, transactions := data, prev_block_hash := prevBlockHash
      hash := "", height := height, nonce := 0 } fuel

/-- `Block::new_genesis_block(coinbase)`. -/
def Block.new_genesis_block (coinbase : Transaction) (timestamp : Nat) (fuel : Nat) :
    Option Block :=
  Block.new [coinbase] "" 0 timestamp fuel

/-! ## `src/models/blockchain.rs` -/

/-- The genesis coinbase payload. -/
def GENESIS_COINBASE_DATA : String := "This is the Genesis Block"

/-- The `sled` block store: serialized blocks keyed by hash plus the
distinguished `LAST` pointer. -/
structure BlockDb where
  blocks : List (String × Block)
  last : Option String
deriving Repr, DecidableEq, Inhabited

/-- `Blockchain` from `src/models/blockchain.rs`. -/
structure Blockchain where
  current_hash : String
  db : BlockDb
deriving Repr, DecidableEq, Inhabited

/-- The possible outcomes of `Blockchain::new()`: a panic (from
`.expect("Must create a new block database first")`), an error return, or an
instance. -/
inductive NewChainResult where
  | panicked
  | err (e : EngineError)
  | ok (bc : Blockchain)
deriving Repr, DecidableEq, Inhabited

/-- `Blockchain::new()`: opens the store and reads `LAST`; a missing `LAST`
panics via `.expect`. -/
def Blockchain.new (db : BlockDb) : NewChainResult :=
  match db.last with
  | none => .panicked
  | some lastHash => .ok { current_hash := lastHash, db := db }

/-- `Blockchain::new()` as the specification describes it: a missing `LAST`
is the `ChainMissing` error.  Modelled from the spec: §4.6 "Open: require
LAST to exist" together with §7's `ChainMissing` error kind; used only to
state how the source deviates from it. -/
def Blockchain.newSpec (db : BlockDb) : NewChainResult :=
  match db.last with
  | none => .err .chainMissing
  | some lastHash => .ok { current_hash := lastHash, db := db }

/-- `Blockchain::create_blockchain(address)`: wipe the store, build the
genesis coinbase and block, store it and point `LAST` at it. -/
def Blockchain.create_blockchain (address : String) (timestamp : Nat) (fuel : Nat) :
    Except EngineError Blockchain :=
  let cbtx := Transaction.new_coinbase address GENESIS_COINBASE_DATA
  match Block.new_genesis_block cbtx timestamp fuel with
  | none => .error .outOfFuel
  | some genesis =>
    .ok { current_hash := genesis.hash
          db := { blocks := [(genesis.hash, genesis)], last := some genesis.hash } }

/-- `BlockchainIter`: walk hash links from the current hash; stops when a hash
has no record.  `fuel` bounds the walk (a cyclic store would make the Rust
iterator spin; well-formed stores terminate before the bound). -/
def iterBlocksAux (blocks : List (String × Block)) : Nat → String → List Block
  | 0, _ => []
  | fuel + 1, h =>
    match mapGet blocks h with
    | none => []
    | some b => b :: iterBlocksAux blocks fuel b.prev_block_hash

/-- The blocks yielded by `Blockchain::iter()`, tip first. -/
def Blockchain.iterBlocks (bc : Blockchain) : List Block :=
  iterBlocksAux bc.db.blocks (bc.db.blocks.length + 1) bc.current_hash

/-- `Blockchain::get_best_height`: the tip's height, `-1` when `LAST` is
missing; a dangling `LAST` pointer panics (`.unwrap()`). -/
def Blockchain.get_best_height (bc : Blockchain) : Except EngineError Int :=
  match bc.db.last with
  | none => .ok (-1)
  | some lastHash =>
    match mapGet bc.db.blocks lastHash with
    | none => .error .panicked
    | some b => .ok b.height

/-- `Blockchain::add_block(transactions)`: mines a block on top of the tip
using `get_best_height()` as the new block's height, persists it and advances
`LAST` and the in-memory tip. -/
def Blockchain.add_block (bc : Blockchain) (transactions : List Transaction)
    (timestamp : Nat) (fuel : Nat) : Except EngineError (Blockchain × Block) := do
  let lastHash ← match bc.db.last with
    | none => Except.error EngineError.panicked
    | some h => Except.ok h
  let height ← bc.get_best_height
  match Block.new transactions lastHash height timestamp fuel with
  | none => .error .outOfFuel
  | some newBlock =>
    .ok ({ current_hash := newBlock.hash
           db := { blocks := mapInsert bc.db.blocks newBlock.hash newBlock
                   last := some newBlock.hash } },
         newBlock)

/-- `Blockchain::find_transaction(id)`: first match in tip-to-genesis order. -/
def Blockchain.find_transaction (bc : Blockchain) (id : String) :
    Except EngineError Transaction :=
  match ((bc.iterBlocks.map Block.transactions).flatten).find? (fun tx => tx.id == id) with
  | some tx => .ok tx
  | none => .error .txNotFound

/-- `Blockchain::get_prev_txs(tx)`: resolve every input's previous
transaction, keyed by its id. -/
def Blockchain.get_prev_txs (bc : Blockchain) (tx : Transaction) :
    Except EngineError (List (String × Transaction)) :=
  tx.vin.foldlM
    (fun m vin => do
      let prevTx ← bc.find_transaction vin.txid
      pure (mapInsert m prevTx.id prevTx))
    []

/-- `Blockchain::sign_transaction(tx, private_key)`; returns the signed
transaction. -/
def Blockchain.sign_transaction (bc : Blockchain) (tx : Transaction)
    (privateKey : Bytes) : Except EngineError Transaction := do
  let prevTxs ← bc.get_prev_txs tx
  tx.sign privateKey prevTxs

/-- `Blockchain::verify_transaction(tx)`. -/
def Blockchain.verify_transaction (bc : Blockchain) (tx : Transaction) :
    Except EngineError Bool := do
  let prevTxs ← bc.get_prev_txs tx
  tx.verify prevTxs

/-! ### `Blockchain::find_utxo` -/

/-- Append an output to the record for `k`, creating the record if absent
(the `utxos.get_mut`/`insert` match in `find_utxo`). -/
def utxoPush (m : List (String × TXOutputs)) (k : String) (o : TXOutput) :
    List (String × TXOutputs) :=
  match m with
  | [] => [(k, ⟨[o]⟩)]
  | (k1, v1) :: rest =>
    if k1 = k then (k1, ⟨v1.outputs ++ [o]⟩) :: rest
    else (k1, v1) :: utxoPush rest k o

/-- Append a spent output index under `k` (the `spent_txos` match). -/
def spentAdd (m : List (String × List Int)) (k : String) (i : Int) :
    List (String × List Int) :=
  match m with
  | [] => [(k, [i])]
  | (k1, v1) :: rest =>
    if k1 = k then (k1, v1 ++ [i]) :: rest
    else (k1, v1) :: spentAdd rest k i

/-- The skip test of `find_utxo`'s output loop: output index `n` of `txid` is
kept unless the spent map lists it. -/
def keepOutput (spent : List (String × List Int)) (txid : String) (n : Nat) : Bool :=
  match mapGet spent txid with
  | some ids => !(ids.contains (n : Int))
  | none => true

/-- The output loop of `find_utxo` for one transaction: push each output whose
index is not recorded as spent for this txid. -/
def scanOutputsFrom (spent : List (String × List Int)) (txid : String)
    (u : List (String × TXOutputs)) (n : Nat) : List TXOutput → List (String × TXOutputs)
  | [] => u
  | o :: rest =>
    scanOutputsFrom spent txid (if keepOutput spent txid n then utxoPush u txid o else u)
      (n + 1) rest

/-- The input loop of `find_utxo` for one transaction: record every referenced
`(txid, vout)` of a non-coinbase transaction as spent. -/
def scanInputs (spent : List (String × List Int)) (tx : Transaction) :
    List (String × List Int) :=
  if tx.is_coinbase then spent
  else tx.vin.foldl (fun s v => spentAdd s v.txid v.vout) spent

/-- `find_utxo`'s handling of one transaction: outputs first, then inputs. -/
def scanTx (st : List (String × TXOutputs) × List (String × List Int))
    (tx : Transaction) : List (String × TXOutputs) × List (String × List Int) :=
  (scanOutputsFrom st.2 tx.id st.1 0 tx.vout, scanInputs st.2 tx)

/-- `Blockchain::find_utxo()`: scan tip to genesis, transactions in block
order. -/
def Blockchain.find_utxo (bc : Blockchain) : List (String × TXOutputs) :=
  (bc.iterBlocks.foldl (fun st b => b.transactions.foldl scanTx st) ([], [])).1

/-! ## `src/wallet/mod.rs` -/

/-- `Wallet` from `src/wallet/mod.rs`. -/
structure Wallet where
  secret_key : Bytes
  public_key : Bytes
deriving Repr, DecidableEq, Inhabited

/-- `Wallet::new()`, with the OS randomness as an explicit 32-byte seed. -/
def Wallet.ofSeed (seed : Bytes) : Wallet :=
  let kp := ed25519Keypair seed
  { secret_key := kp.1, public_key := kp.2 }

/-- `Wallet::get_address()`. -/
def Wallet.get_address (w : Wallet) : String :=
  addrEncode (hashPubKey w.public_key)

/-- The wallet store contents (`Wallets.wallets`), address to wallet. -/
abbrev WalletMap := List (String × Wallet)

/-- `Wallets::get_wallet(address)`. -/
def walletGet (ws : WalletMap) (address : String) : Option Wallet :=
  mapGet ws address

/-! ## `src/utxoset/mod.rs` -/

/-- The UTXO `sled` store: records keyed by txid, iterated in key order. -/
abbrev UtxoDb := List (String × TXOutputs)

/-- Byte-lexicographic order on keys (sled iterates keys in this order). -/
def bytesLe : Bytes → Bytes → Bool
  | [], _ => true
  | _ :: _, [] => false
  | a :: as1, b :: bs1 => if a < b then true else if b < a then false else bytesLe as1 bs1

/-- Insert-or-replace keeping the store sorted by key. -/
def dbInsertSorted (db : UtxoDb) (k : String) (v : TXOutputs) : UtxoDb :=
  match db with
  | [] => [(k, v)]
  | (k1, v1) :: rest =>
    if k = k1 then (k, v) :: rest
    else if bytesLe (strBytes k) (strBytes k1) then (k, v) :: (k1, v1) :: rest
    else (k1, v1) :: dbInsertSorted rest k v

/-- `db.remove(key)`. -/
def dbRemove (db : UtxoDb) (k : String) : UtxoDb :=
  db.filter (fun p => p.1 ≠ k)

/-- `UTXOSet::reindex()`: wipe the store and write every record of
`blockchain.find_utxo()`. -/
def UTXOSet.reindex (bc : Blockchain) : UtxoDb :=
  (bc.find_utxo).foldl (fun db p => dbInsertSorted db p.1 p.2) []

/-- The per-input part of `UTXOSet::update`: load the spent record (`unwrap`
panics when missing), keep every output position other than `vin.vout`, and
rewrite or remove the record. -/
def updateSpendInput (db : UtxoDb) (vin : TXInput) : Except EngineError UtxoDb :=
  match mapGet db vin.txid with
  | none => .error .panicked
  | some outs =>
    let updateOutputs := (outs.outputs.enum.filter (fun p => (p.1 : Int) ≠ vin.vout)).map (fun p => p.2)
    if updateOutputs.isEmpty then .ok (dbRemove db vin.txid)
    else .ok (dbInsertSorted db vin.txid ⟨updateOutputs⟩)

/-- The per-transaction part of `UTXOSet::update`: spend the inputs of a
non-coinbase transaction, then store all of the transaction's outputs under
its id. -/
def updateTx (db : UtxoDb) (tx : Transaction) : Except EngineError UtxoDb := do
  let db1 ←
    if tx.is_coinbase then pure db
    else tx.vin.foldlM updateSpendInput db
  pure (dbInsertSorted db1 tx.id ⟨tx.vout.map (fun o => o)⟩)

/-- `UTXOSet::update(block)`. -/
def UTXOSet.update (db : UtxoDb) (block : Block) : Except EngineError UtxoDb :=
  block.transactions.foldlM updateTx db

/-- Append an output index to the selection for `txid` (the
`unspent_outputs.get_mut`/`insert` match in `find_spendable_outputs`). -/
def selPush (sel : List (String × List Int)) (txid : String) (i : Int) :
    List (String × List Int) :=
  match sel with
  | [] => [(txid, [i])]
  | (k1, v1) :: rest =>
    if k1 = txid then (k1, v1 ++ [i]) :: rest
    else (k1, v1) :: selPush rest txid i

/-- The inner loop of `find_spendable_outputs` over one record's outputs. -/
def spendScanOutputs (address : Bytes) (amount : Int) (txid : String) :
    Nat → Int × List (String × List Int) → List TXOutput → Int × List (String × List Int)
  | _, st, [] => st
  | n, (acc, sel), o :: rest =>
    if o.is_locked_with_key address && decide (acc < amount) then
      spendScanOutputs address amount txid (n + 1) (acc + o.value, selPush sel txid (n : Int)) rest
    else
      spendScanOutputs address amount txid (n + 1) (acc, sel) rest

/-- `UTXOSet::find_spendable_outputs(address, amount)`: scan the store in key
order, accumulating matching outputs while the accumulated value is below
`amount`.  Returns `(accumulated, txid → output indices)`. -/
def UTXOSet.find_spendable_outputs (db : UtxoDb) (address : Bytes) (amount : Int) :
    Int × List (String × List Int) :=
  db.foldl (fun st entry => spendScanOutputs address amount entry.1 0 st entry.2.outputs)
    (0, [])

/-- `UTXOSet::find_utxos(pub_key_hash)`: all stored outputs unlockable with
the given hash. -/
def UTXOSet.find_utxos (db : UtxoDb) (pubKeyHash : Bytes) : TXOutputs :=
  ⟨(db.map (fun p => p.2.outputs.filter (fun o => o.can_be_unlocked_with pubKeyHash))).flatten⟩

/-- `UTXOSet::count_transactions()`. -/
def UTXOSet.count_transactions (db : UtxoDb) : Int := db.length

/-! ## `Transaction::new_utxo` -/

/-- `Transaction::new_utxo(to, from, amount, bc)`: select spendable outputs of
the source wallet `fromAddr`, build inputs for them, pay `amount` to `toAddr`
plus change back, hash and sign.  The wallet store contents are the `wallets`
parameter (the source reads them from disk). -/
def Transaction.new_utxo (wallets : WalletMap) (db : UtxoDb) (bc : Blockchain)
    (toAddr fromAddr : String) (amount : Int) : Except EngineError Transaction :=
  match walletGet wallets fromAddr with
  | none => .error .sourceWalletNotFound
  | some wallet =>
    match walletGet wallets toAddr with
    | none => .error .destinationWalletNotFound
    | some _ =>
      let pubKeyHash := hashPubKey wallet.public_key
      let accV := UTXOSet.find_spendable_outputs db pubKeyHash amount
      if accV.1 < amount then .error (.insufficientFunds accV.1)
      else
        let vin := (accV.2.map (fun p => p.2.map (fun out =>
          ({ txid := p.1, vout := out, signature := [], pub_key := wallet.public_key } : TXInput)))).flatten
        let vout0 := [TXOutput.new amount toAddr]
        let vout := if accV.1 > amount then vout0 ++ [TXOutput.new (accV.1 - amount) fromAddr] else vout0
        let tx0 : Transaction := { id := "", vin := vin, vout := vout }
        let tx1 : Transaction := { tx0 with id := txHashOf tx0 }
        bc.sign_transaction tx1 wallet.secret_key

/-! ## The command pipeline (`src/cli/mod.rs`) -/

/-- The persistent state a command acts on: the block store (inside the open
`Blockchain`) and the UTXO store. -/
structure SysState where
  bc : Blockchain
  utxo : UtxoDb
deriving Repr, DecidableEq, Inhabited

/-- The `create <ADDRESS>` command: `create_blockchain` then `reindex`. -/
def cmdCreate (address : String) (timestamp : Nat) (fuel : Nat) :
    Except EngineError SysState := do
  let bc ← Blockchain.create_blockchain address timestamp fuel
  pure { bc := bc, utxo := UTXOSet.reindex bc }

/-- The `send <FROM> <TO> <AMOUNT>` command (after the rate-limit guard):
`new_utxo` (note the CLI passes `from` and `to` positionally into `new_utxo`'s
`(to, from, ..)` parameters), a `Reward!` coinbase to `from`, `add_block`,
`update`. -/
def cmdSend (wallets : WalletMap) (timestamp : Nat) (fuel : Nat)
    (fromAddr toAddr : String) (amount : Int) (s : SysState) :
    Except EngineError SysState := do
  let tx ← Transaction.new_utxo wallets s.utxo s.bc fromAddr toAddr amount
  let cbtx := Transaction.new_coinbase fromAddr "Reward!"
  let r ← s.bc.add_block [cbtx, tx] timestamp fuel
  let utxo1 ← UTXOSet.update s.utxo r.2
  pure { bc := r.1, utxo := utxo1 }

/-- The balance printed by `getbalance`: the sum of the values of
`find_utxos(pub_key_hash)`. -/
def getBalance (s : SysState) (address : String) : Int :=
  ((UTXOSet.find_utxos s.utxo (addrDecodeBody address)).outputs.map TXOutput.value).sum

/-- The state after a command whose errors the command handler surfaces
without modifying the stores. -/
def recoverState (s : SysState) (r : Except EngineError SysState) : SysState :=
  match r with
  | .ok s1 => s1
  | .error _ => s

/-! ## Derived notions the specification speaks about -/

/-- All `(prev_txid, prev_vout_index)` reference pairs of the non-coinbase
inputs stored in a list of blocks. -/
def nonCoinbaseInputPairs (blocks : List Block) : List (String × Int) :=
  (blocks.map (fun b => (b.transactions.map (fun tx =>
    if tx.is_coinbase then [] else tx.vin.map (fun v => (v.txid, v.vout)))).flatten)).flatten

/-- The transactions of a chain in scan order (tip block first, transactions
in block order). -/
def chainTransactions (bc : Blockchain) : List Transaction :=
  (bc.iterBlocks.map Block.transactions).flatten

/-- The spent map `find_utxo` has accumulated after scanning the given
transactions. -/
def spentIdxsOf (pre : List Transaction) : List (String × List Int) :=
  pre.foldl scanInputs []

/-- The outputs `find_utxo`'s output loop keeps for a record, starting at
output index `n`: those whose index is not in the spent map. -/
def survFrom (spent : List (String × List Int)) (txid : String) :
    Nat → List TXOutput → List TXOutput
  | _, [] => []
  | n, o :: rest =>
    if keepOutput spent txid n then o :: survFrom spent txid (n + 1) rest
    else survFrom spent txid (n + 1) rest

/-- The outputs of `t` that survive (are unspent) when `find_utxo` reaches `t`
after scanning `pre`. -/
def survivingOutputs (pre : List Transaction) (t : Transaction) : List TXOutput :=
  survFrom (spentIdxsOf pre) t.id 0 t.vout

/-- The value stored in the UTXO store at position `i` of `txid`'s record
(0 when absent). -/
def valueAt (db : UtxoDb) (txid : String) (i : Int) : Int :=
  match mapGet db txid with
  | some outs =>
    match (if i < 0 then none else outs.outputs.get? i.toNat) with
    | some o => o.value
    | none => 0
  | none => 0

/-- The total stored value referenced by a list of output indices of `txid`. -/
def idxsSum (db : UtxoDb) (txid : String) (idxs : List Int) : Int :=
  (idxs.map (valueAt db txid)).sum

/-- The total stored value referenced by a selection map. -/
def selSum (db : UtxoDb) (sel : List (String × List Int)) : Int :=
  (sel.map (fun p => idxsSum db p.1 p.2)).sum

/-- The `(txid, index)` pairs of a selection map, in construction order. -/
def selPairs (sel : List (String × List Int)) : List (String × Int) :=
  (sel.map (fun p => p.2.map (fun i => (p.1, i)))).flatten

/-- The `(txid, output)` pairs held by a UTXO store. -/
def utxoPairs (m : UtxoDb) : List (String × TXOutput) :=
  (m.map (fun p => p.2.outputs.map (fun o => (p.1, o)))).flatten

/-- Decidable equality for command results. -/
instance exceptDecEq {e a : Type} [DecidableEq e] [DecidableEq a] :
    DecidableEq (Except e a) := fun x y =>
  match x, y with
  | .ok v, .ok w =>
    if h : v = w then isTrue (by rw [h]) else isFalse (fun hh => by cases hh; exact h rfl)
  | .error v, .error w =>
    if h : v = w then isTrue (by rw [h]) else isFalse (fun hh => by cases hh; exact h rfl)
  | .ok _, .error _ => isFalse (fun hh => by cases hh)
  | .error _, .ok _ => isFalse (fun hh => by cases hh)

/-! ## A concrete run of the command pipeline

`create A`, then three `send` commands.  Given the swapped positional
arguments between the CLI and `new_utxo`, command `send X Y n` moves `n`
units from wallet `Y` to wallet `X` (and mints the reward coinbase to `X`).
The run is: transfer 30 from A to B, transfer 130 from B to A, transfer 300
from A to B.  The intermediate states are spelled out literally and each
command step is proved against them below. -/

def seedA : Bytes := List.replicate 32 1

def seedB : Bytes := List.replicate 32 2

def walletA : Wallet := Wallet.ofSeed seedA

def walletB : Wallet := Wallet.ofSeed seedB

def addrA : String := walletA.get_address

def addrB : String := walletB.get_address

def scenWallets : WalletMap := [(addrA, walletA), (addrB, walletB)]

/-- The state after `create A` (mined at model timestamp 1000). -/
def genState : SysState :=
  { bc := { current_hash := "0000e06d", db := { blocks := [("0000e06d", { timestamp := 1000, transactions := [{ id := "0005fb8b", vin := [{ txid := "", vout := -1, signature := [], pub_key := [84, 104, 105, 115, 32, 105, 115, 32, 116, 104, 101, 32, 71, 101, 110, 101, 115, 105, 115, 32, 66, 108, 111, 99, 107] }], vout := [{ value := 100, pub_key_hash := [206, 237, 12, 43, 74, 105, 136, 167, 198, 229, 4, 35, 66, 97, 128, 159, 190, 221, 252, 27] }] }], prev_block_hash := "", hash := "0000e06d", height := 0, nonce := 10 })], last := some "0000e06d" } }, utxo := [("0005fb8b", { outputs := [{ value := 100, pub_key_hash := [206, 237, 12, 43, 74, 105, 136, 167, 198, 229, 4, 35, 66, 97, 128, 159, 190, 221, 252, 27] }] })] }

/-- The state after `create A; send B A 30`. -/
def sendOneState : SysState :=
  { bc := { current_hash := "0000a8c8", db := { blocks := [("0000e06d", { timestamp := 1000, transactions := [{ id := "0005fb8b", vin := [{ txid := "", vout := -1, signature := [], pub_key := [84, 104, 105, 115, 32, 105, 115, 32, 116, 104, 101, 32, 71, 101, 110, 101, 115, 105, 115, 32, 66, 108, 111, 99, 107] }], vout := [{ value := 100, pub_key_hash := [206, 237, 12, 43, 74, 105, 136, 167, 198, 229, 4, 35, 66, 97, 128, 159, 190, 221, 252, 27] }] }], prev_block_hash := "", hash := "0000e06d", height := 0, nonce := 10 }), ("0000a8c8", { timestamp := 2000, transactions := [{ id := "000a5c09", vin := [{ txid := "", vout := -1, signature := [], pub_key := [82, 101, 119, 97, 114, 100, 33] }], vout := [{ value := 100, pub_key_hash := [142, 173, 204, 235, 10, 41, 72, 103, 134, 165, 196, 227, 2, 33, 64, 95, 126, 157, 188, 219] }] }, { id := "0007cb38", vin := [{ txid := "0005fb8b", vout := 0, signature := [99, 48, 48, 48, 55, 48, 56, 98, 101, 10, 10, 10, 10, 10, 10, 10, 10, 10, 10, 10, 10, 10, 10, 10, 10, 10, 10, 10, 10, 10, 10, 10, 10, 10, 10, 10, 10, 10, 10, 10, 10], pub_key := [10, 10, 10, 10, 10, 10, 10, 10, 10, 10, 10, 10, 10, 10, 10, 10, 10, 10, 10, 10, 10, 10, 10, 10, 10, 10, 10, 10, 10, 10, 10, 10] }], vout := [{ value := 30, pub_key_hash := [142, 173, 204, 235, 10, 41, 72, 103, 134, 165, 196, 227, 2, 33, 64, 95, 126, 157, 188, 219] }, { value := 70, pub_key_hash := [206, 237, 12, 43, 74, 105, 136, 167, 198, 229, 4, 35, 66, 97, 128, 159, 190, 221, 252, 27] }] }], prev_block_hash := "0000e06d", hash := "0000a8c8", height := 0, nonce := 6 })], last := some "0000a8c8" } }, utxo := [("0007cb38", { outputs := [{ value := 30, pub_key_hash := [142, 173, 204, 235, 10, 41, 72, 103, 134, 165, 196, 227, 2, 33, 64, 95, 126, 157, 188, 219] }, { value := 70, pub_key_hash := [206, 237, 12, 43, 74, 105, 136, 167, 198, 229, 4, 35, 66, 97, 128, 159, 190, 221, 252, 27] }] }), ("000a5c09", { outputs := [{ value := 100, pub_key_hash := [142, 173, 204, 235, 10, 41, 72, 103, 134, 165, 196, 227, 2, 33, 64, 95, 126, 157, 188, 219] }] })] }

/-- The state after `create A; send B A 30; send A B 130`. -/
def sendTwoState : SysState :=
  { bc := { current_hash := "00003211", db := { blocks := [("0000e06d", { timestamp := 1000, transactions := [{ id := "0005fb8b", vin := [{ txid := "", vout := -1, signature := [], pub_key := [84, 104, 105, 115, 32, 105, 115, 32, 116, 104, 101, 32, 71, 101, 110, 101, 115, 105, 115, 32, 66, 108, 111, 99, 107] }], vout := [{ value := 100, pub_key_hash := [206, 237, 12, 43, 74, 105, 136, 167, 198, 229, 4, 35, 66, 97, 128, 159, 190, 221, 252, 27] }] }], prev_block_hash := "", hash := "0000e06d", height := 0, nonce := 10 }), ("0000a8c8", { timestamp := 2000, transactions := [{ id := "000a5c09", vin := [{ txid := "", vout := -1, signature := [], pub_key := [82, 101, 119, 97, 114, 100, 33] }], vout := [{ value := 100, pub_key_hash := [142, 173, 204, 235, 10, 41, 72, 103, 134, 165, 196, 227, 2, 33, 64, 95, 126, 157, 188, 219] }] }, { id := "0007cb38", vin := [{ txid := "0005fb8b", vout := 0, signature := [99, 48, 48, 48, 55, 48, 56, 98, 101, 10, 10, 10, 10, 10, 10, 10, 10, 10, 10, 10, 10, 10, 10, 10, 10, 10, 10, 10, 10, 10, 10, 10, 10, 10, 10, 10, 10, 10, 10, 10, 10], pub_key := [10, 10, 10, 10, 10, 10, 10, 10, 10, 10, 10, 10, 10, 10, 10, 10, 10, 10, 10, 10, 10, 10, 10, 10, 10, 10, 10, 10, 10, 10, 10, 10] }], vout := [{ value := 30, pub_key_hash := [142, 173, 204, 235, 10, 41, 72, 103, 134, 165, 196, 227, 2, 33, 64, 95, 126, 157, 188, 219] }, { value := 70, pub_key_hash := [206, 237, 12, 43, 74, 105, 136, 167, 198, 229, 4, 35, 66, 97, 128, 159, 190, 221, 252, 27] }] }], prev_block_hash := "0000e06d", hash := "0000a8c8", height := 0, nonce := 6 }), ("00003211", { timestamp := 3000, transactions := [{ id := "000f4d09", vin := [{ txid := "", vout := -1, signature := [], pub_key := [82, 101, 119, 97, 114, 100, 33] }], vout := [{ value := 100, pub_key_hash := [206, 237, 12, 43, 74, 105, 136, 167, 198, 229, 4, 35, 66, 97, 128, 159, 190, 221, 252, 27] }] }, { id := "0003539a", vin := [{ txid := "0007cb38", vout := 0, signature := [99, 48, 48, 48, 97, 99, 99, 101, 48, 17, 17, 17, 17, 17, 17, 17, 17, 17, 17, 17, 17, 17, 17, 17, 17, 17, 17, 17, 17, 17, 17, 17, 17, 17, 17, 17, 17, 17, 17, 17, 17], pub_key := [17, 17, 17, 17, 17, 17, 17, 17, 17, 17, 17, 17, 17, 17, 17, 17, 17, 17, 17, 17, 17, 17, 17, 17, 17, 17, 17, 17, 17, 17, 17, 17] }, { txid := "000a5c09", vout := 0, signature := [99, 48, 48, 48, 97, 101, 100, 56, 99, 17, 17, 17, 17, 17, 17, 17, 17, 17, 17, 17, 17, 17, 17, 17, 17, 17, 17, 17, 17, 17, 17, 17, 17, 17, 17, 17, 17, 17, 17, 17, 17], pub_key := [17, 17, 17, 17, 17, 17, 17, 17, 17, 17, 17, 17, 17, 17, 17, 17, 17, 17, 17, 17, 17, 17, 17, 17, 17, 17, 17, 17, 17, 17, 17, 17] }], vout := [{ value := 130, pub_key_hash := [206, 237, 12, 43, 74, 105, 136, 167, 198, 229, 4, 35, 66, 97, 128, 159, 190, 221, 252, 27] }] }], prev_block_hash := "0000a8c8", hash := "00003211", height := 0, nonce := 1 })], last := some "00003211" } }, utxo := [("0003539a", { outputs := [{ value := 130, pub_key_hash := [206, 237, 12, 43, 74, 105, 136, 167, 198, 229, 4, 35, 66, 97, 128, 159, 190, 221, 252, 27] }] }), ("0007cb38", { outputs := [{ value := 70, pub_key_hash := [206, 237, 12, 43, 74, 105, 136, 167, 198, 229, 4, 35, 66, 97, 128, 159, 190, 221, 252, 27] }] }), ("000f4d09", { outputs := [{ value := 100, pub_key_hash := [206, 237, 12, 43, 74, 105, 136, 167, 198, 229, 4, 35, 66, 97, 128, 159, 190, 221, 252, 27] }] })] }

/-- The state after `create A; send B A 30; send A B 130; send B A 300`. -/
def sendThreeState : SysState :=
  { bc := { current_hash := "0000d4e1", db := { blocks := [("0000e06d", { timestamp := 1000, transactions := [{ id := "0005fb8b", vin := [{ txid := "", vout := -1, signature := [], pub_key := [84, 104, 105, 115, 32, 105, 115, 32, 116, 104, 101, 32, 71, 101, 110, 101, 115, 105, 115, 32, 66, 108, 111, 99, 107] }], vout := [{ value := 100, pub_key_hash := [206, 237, 12, 43, 74, 105, 136, 167, 198, 229, 4, 35, 66, 97, 128, 159, 190, 221, 252, 27] }] }], prev_block_hash := "", hash := "0000e06d", height := 0, nonce := 10 }), ("0000a8c8", { timestamp := 2000, transactions := [{ id := "000a5c09", vin := [{ txid := "", vout := -1, signature := [], pub_key := [82, 101, 119, 97, 114, 100, 33] }], vout := [{ value := 100, pub_key_hash := [142, 173, 204, 235, 10, 41, 72, 103, 134, 165, 196, 227, 2, 33, 64, 95, 126, 157, 188, 219] }] }, { id := "0007cb38", vin := [{ txid := "0005fb8b", vout := 0, signature := [99, 48, 48, 48, 55, 48, 56, 98, 101, 10, 10, 10, 10, 10, 10, 10, 10, 10, 10, 10, 10, 10, 10, 10, 10, 10, 10, 10, 10, 10, 10, 10, 10, 10, 10, 10, 10, 10, 10, 10, 10], pub_key := [10, 10, 10, 10, 10, 10, 10, 10, 10, 10, 10, 10, 10, 10, 10, 10, 10, 10, 10, 10, 10, 10, 10, 10, 10, 10, 10, 10, 10, 10, 10, 10] }], vout := [{ value := 30, pub_key_hash := [142, 173, 204, 235, 10, 41, 72, 103, 134, 165, 196, 227, 2, 33, 64, 95, 126, 157, 188, 219] }, { value := 70, pub_key_hash := [206, 237, 12, 43, 74, 105, 136, 167, 198, 229, 4, 35, 66, 97, 128, 159, 190, 221, 252, 27] }] }], prev_block_hash := "0000e06d", hash := "0000a8c8", height := 0, nonce := 6 }), ("00003211", { timestamp := 3000, transactions := [{ id := "000f4d09", vin := [{ txid := "", vout := -1, signature := [], pub_key := [82, 101, 119, 97, 114, 100, 33] }], vout := [{ value := 100, pub_key_hash := [206, 237, 12, 43, 74, 105, 136, 167, 198, 229, 4, 35, 66, 97, 128, 159, 190, 221, 252, 27] }] }, { id := "0003539a", vin := [{ txid := "0007cb38", vout := 0, signature := [99, 48, 48, 48, 97, 99, 99, 101, 48, 17, 17, 17, 17, 17, 17, 17, 17, 17, 17, 17, 17, 17, 17, 17, 17, 17, 17, 17, 17, 17, 17, 17, 17, 17, 17, 17, 17, 17, 17, 17, 17], pub_key := [17, 17, 17, 17, 17, 17, 17, 17, 17, 17, 17, 17, 17, 17, 17, 17, 17, 17, 17, 17, 17, 17, 17, 17, 17, 17, 17, 17, 17, 17, 17, 17] }, { txid := "000a5c09", vout := 0, signature := [99, 48, 48, 48, 97, 101, 100, 56, 99, 17, 17, 17, 17, 17, 17, 17, 17, 17, 17, 17, 17, 17, 17, 17, 17, 17, 17, 17, 17, 17, 17, 17, 17, 17, 17, 17, 17, 17, 17, 17, 17], pub_key := [17, 17, 17, 17, 17, 17, 17, 17, 17, 17, 17, 17, 17, 17, 17, 17, 17, 17, 17, 17, 17, 17, 17, 17, 17, 17, 17, 17, 17, 17, 17, 17] }], vout := [{ value := 130, pub_key_hash := [206, 237, 12, 43, 74, 105, 136, 167, 198, 229, 4, 35, 66, 97, 128, 159, 190, 221, 252, 27] }] }], prev_block_hash := "0000a8c8", hash := "00003211", height := 0, nonce := 1 }), ("0000d4e1", { timestamp := 4000, transactions := [{ id := "000a5c09", vin := [{ txid := "", vout := -1, signature := [], pub_key := [82, 101, 119, 97, 114, 100, 33] }], vout := [{ value := 100, pub_key_hash := [142, 173, 204, 235, 10, 41, 72, 103, 134, 165, 196, 227, 2, 33, 64, 95, 126, 157, 188, 219] }] }, { id := "000958fc", vin := [{ txid := "0003539a", vout := 0, signature := [99, 48, 48, 48, 102, 52, 98, 100, 101, 10, 10, 10, 10, 10, 10, 10, 10, 10, 10, 10, 10, 10, 10, 10, 10, 10, 10, 10, 10, 10, 10, 10, 10, 10, 10, 10, 10, 10, 10, 10, 10], pub_key := [10, 10, 10, 10, 10, 10, 10, 10, 10, 10, 10, 10, 10, 10, 10, 10, 10, 10, 10, 10, 10, 10, 10, 10, 10, 10, 10, 10, 10, 10, 10, 10] }, { txid := "0007cb38", vout := 0, signature := [99, 48, 48, 48, 53, 51, 100, 55, 50, 10, 10, 10, 10, 10, 10, 10, 10, 10, 10, 10, 10, 10, 10, 10, 10, 10, 10, 10, 10, 10, 10, 10, 10, 10, 10, 10, 10, 10, 10, 10, 10], pub_key := [10, 10, 10, 10, 10, 10, 10, 10, 10, 10, 10, 10, 10, 10, 10, 10, 10, 10, 10, 10, 10, 10, 10, 10, 10, 10, 10, 10, 10, 10, 10, 10] }, { txid := "000f4d09", vout := 0, signature := [99, 48, 48, 48, 102, 101, 50, 52, 101, 10, 10, 10, 10, 10, 10, 10, 10, 10, 10, 10, 10, 10, 10, 10, 10, 10, 10, 10, 10, 10, 10, 10, 10, 10, 10, 10, 10, 10, 10, 10, 10], pub_key := [10, 10, 10, 10, 10, 10, 10, 10, 10, 10, 10, 10, 10, 10, 10, 10, 10, 10, 10, 10, 10, 10, 10, 10, 10, 10, 10, 10, 10, 10, 10, 10] }], vout := [{ value := 300, pub_key_hash := [142, 173, 204, 235, 10, 41, 72, 103, 134, 165, 196, 227, 2, 33, 64, 95, 126, 157, 188, 219] }] }], prev_block_hash := "00003211", hash := "0000d4e1", height := 0, nonce := 10 })], last := some "0000d4e1" } }, utxo := [("000958fc", { outputs := [{ value := 300, pub_key_hash := [142, 173, 204, 235, 10, 41, 72, 103, 134, 165, 196, 227, 2, 33, 64, 95, 126, 157, 188, 219] }] }), ("000a5c09", { outputs := [{ value := 100, pub_key_hash := [142, 173, 204, 235, 10, 41, 72, 103, 134, 165, 196, 227, 2, 33, 64, 95, 126, 157, 188, 219] }] })] }

/-- The composed run of the four commands. -/
def scenarioRun : Except EngineError SysState :=
  cmdCreate addrA 1000 64 >>= cmdSend scenWallets 2000 64 addrB addrA 30
    >>= cmdSend scenWallets 3000 64 addrA addrB 130
    >>= cmdSend scenWallets 4000 64 addrB addrA 300

/-- The transfer transaction of the second block of the run (spent once by
the second send and referenced again by the third). -/
def spentTwiceTx : Transaction :=
  ((sendTwoState.bc.iterBlocks.getD 1 default).transactions.getD 1 default)

/-- The block found when mining `Block::new([coinbase to A], "", 0)` at model
timestamp 777. -/
def powBlock : Block :=
  { timestamp := 777,
    transactions := [{ id := "0001afd1",
                       vin := [{ txid := "",
                                 vout := -1,
                                 signature := [],
                                 pub_key := [82, 101, 119, 97, 114, 100, 32, 116, 111, 32, 206, 237, 12, 43, 74, 105, 136,
                                             167, 198, 229, 4, 35, 66, 97, 128, 159, 190, 221, 252, 27] }],
                       vout := [{ value := 100,
                                  pub_key_hash := [206, 237, 12, 43, 74, 105, 136, 167, 198, 229, 4, 35, 66, 97, 128, 159,
                                                   190, 221, 252, 27] }] }],
    prev_block_hash := "",
    hash := "0000e10c",
    height := 0,
    nonce := 10 }


/-! ### Concrete sign/verify data -/

/-- A previous transaction for the sign/verify witness. -/
def witPrevTx : Transaction := { id := "t0", vin := [], vout := [{ value := 5, pub_key_hash := [1, 2] }] }

/-- The witness secret key. -/
def witSk : Bytes := (ed25519Keypair (List.replicate 32 9)).1

/-- A one-input transfer claiming `witPrevTx`'s output, before signing. -/
def witTx : Transaction :=
  { id := "x", vin := [{ txid := "t0", vout := 0, signature := [], pub_key := ed25519PubOf witSk }],
    vout := [{ value := 5, pub_key_hash := [3, 4] }] }

/-- The signed form of `witTx`. -/
def witSigned : Transaction :=
  match witTx.sign witSk [("t0", witPrevTx)] with
  | .ok t => t
  | .error _ => witTx

/-- The transfer transaction `new_utxo` builds for the first send of the
concrete run. -/
def c4Tx : Transaction :=
  match Transaction.new_utxo scenWallets genState.utxo genState.bc addrB addrA 30 with
  | .ok t => t
  | .error _ => default

/-- The transactions `find_utxo` scans before reaching `spentTwiceTx` in the
concrete run's third state. -/
def c6Pre : List Transaction := (chainTransactions sendTwoState.bc).take 3

/-- The transactions after `spentTwiceTx` in that scan. -/
def c6Post : List Transaction := (chainTransactions sendTwoState.bc).drop 4

/-! ## Theorems -/

/-- Each yielded block of `runProofOfWork` stores its own recomputed hash,
which meets the difficulty target. -/
theorem runProofOfWork_props :
    ∀ (fuel : Nat) (b0 b : Block), runProofOfWork b0 fuel = some b →
      b.hash = sha256hex b.prepare_hash_data ∧ strStartsWith b.hash targetZeros = true
        ∧ b.validate = true := by
  intro fuel
  induction fuel with
  | zero => intro b0 b h; simp [runProofOfWork] at h
  | succ n ih =>
    intro b0 b h
    rw [runProofOfWork] at h
    cases hval : b0.validate with
    | true =>
      rw [hval] at h
      simp only [if_pos] at h
      injection h with h
      subst h
      exact ⟨rfl, hval, hval⟩
    | false =>
      rw [hval] at h
      simp only [Bool.false_eq_true, if_false] at h
      exact ih _ _ h

set_option maxRecDepth 8000 in
/-- The `create A` command produces the literal genesis state. -/
theorem cmdCreate_step : cmdCreate addrA 1000 64 = .ok genState := by decide

set_option maxRecDepth 8000 in
/-- The first send (transfer 30 from A to B) steps to the literal state. -/
theorem cmdSend_step1 :
    cmdSend scenWallets 2000 64 addrB addrA 30 genState = .ok sendOneState := by decide

set_option maxRecDepth 8000 in
/-- The second send (transfer 130 from B to A) steps to the literal state. -/
theorem cmdSend_step2 :
    cmdSend scenWallets 3000 64 addrA addrB 130 sendOneState = .ok sendTwoState := by decide

set_option maxRecDepth 8000 in
/-- The third send (transfer 300 from A to B) steps to the literal state. -/
theorem cmdSend_step3 :
    cmdSend scenWallets 4000 64 addrB addrA 300 sendTwoState = .ok sendThreeState := by decide

/-- `Except` bind on a success value applies the continuation. -/
theorem exceptBindOk {e a b : Type} (x : a) (f : a → Except e b) :
    (Except.ok x >>= f) = f x := rfl

/-- `Except` bind propagates errors. -/
theorem exceptBindError {e a b : Type} (x : e) (f : a → Except e b) :
    (Except.error x >>= f) = Except.error x := rfl

/-- The composed pipeline run reaches the literal final state. -/
theorem scenarioRun_eq : scenarioRun = .ok sendThreeState := by
  unfold scenarioRun
  rw [cmdCreate_step, exceptBindOk, cmdSend_step1, exceptBindOk, cmdSend_step2,
    exceptBindOk, cmdSend_step3]

set_option maxRecDepth 8000 in
/-- C1.  A chain state reached by `create_blockchain` followed by three
successful sends whose stored non-coinbase inputs reference the pair
`("0007cb38", 0)` twice: the UTXO index compacts records on partial spends
(`UTXOSet::update` drops one position and shifts the rest down), so
`find_spendable_outputs` later hands out an already-consumed
`(txid, vout)` pair.  This exhibits the double-spend invariant failing on
reachable code states. -/
theorem no_double_spend_violated :
    scenarioRun = .ok sendThreeState
      ∧ ¬ (nonCoinbaseInputPairs sendThreeState.bc.iterBlocks).Nodup
      ∧ (nonCoinbaseInputPairs sendThreeState.bc.iterBlocks).count ("0007cb38", 0) = 2 :=
  ⟨scenarioRun_eq, by decide, by decide⟩

set_option maxRecDepth 8000 in
/-- C3.  After `create` and one successful `send`, the appended block's
stored height equals the tip's height `0` (the source passes
`get_best_height()` unchanged to `Block::new`), not `0 + 1`; the genesis
block has height 0 and empty previous hash. -/
theorem add_block_height_not_incremented :
    sendOneState.bc.iterBlocks.map Block.height = [0, 0]
      ∧ genState.bc.iterBlocks.map Block.height = [0]
      ∧ (genState.bc.iterBlocks.map Block.prev_block_hash) = [""] :=
  ⟨by decide, by decide, by decide⟩

/-- C5.  Every block `Block::new` returns stores exactly the hex SHA-256 of
`prepare_hash_data` (the serialization of previous hash, Merkle root,
timestamp, difficulty 4 and nonce), that hash has four leading zeros, and
`validate()` accepts the block. -/
theorem block_new_proof_of_work :
    ∀ (data : List Transaction) (prevHash : String) (height : Int)
      (timestamp fuel : Nat) (b : Block),
      Block.new data prevHash height timestamp fuel = some b →
      b.hash = sha256hex b.prepare_hash_data ∧ strStartsWith b.hash targetZeros = true
        ∧ b.validate = true := by
  intro data prevHash height timestamp fuel b h
  exact runProofOfWork_props fuel _ b h

set_option maxRecDepth 8000 in
/-- Witness for C5 at a concrete mining run. -/
theorem block_new_proof_of_work_witness :
    Block.new [Transaction.new_coinbase addrA ""] "" 0 777 64 = some powBlock
      ∧ powBlock.hash = sha256hex powBlock.prepare_hash_data
      ∧ strStartsWith powBlock.hash targetZeros = true
      ∧ powBlock.validate = true :=
  ⟨by decide, block_new_proof_of_work [Transaction.new_coinbase addrA ""] "" 0 777 64 powBlock (by decide)⟩

/-- C9 counterexample.  Opening the block store with no `LAST` entry panics
(`.expect("Must create a new block database first")`); it does not return the
`ChainMissing` error the specification's §7 describes (`Blockchain.newSpec`). -/
theorem blockchain_new_panics_on_missing_last :
    Blockchain.new { blocks := [], last := none } = .panicked
      ∧ Blockchain.new { blocks := [], last := none } ≠ .err .chainMissing
      ∧ Blockchain.newSpec { blocks := [], last := none } = .err .chainMissing := by
  refine ⟨rfl, ?_, rfl⟩
  intro h
  cases h

/-- C9 amended.  `Blockchain::new` panics when `LAST` is missing (rather than
returning an error), and succeeds with the stored tip hash as the current
hash when `LAST` exists. -/
theorem blockchain_new_behavior :
    (∀ db : BlockDb, db.last = none → Blockchain.new db = .panicked)
      ∧ (∀ (db : BlockDb) (h : String), db.last = some h →
          Blockchain.new db = .ok { current_hash := h, db := db }) := by
  constructor
  · intro db hl
    unfold Blockchain.new
    rw [hl]
  · intro db h hl
    unfold Blockchain.new
    rw [hl]

/-- Witness for the amended C9 at concrete stores. -/
theorem blockchain_new_behavior_witness :
    Blockchain.new { blocks := [], last := none } = .panicked
      ∧ Blockchain.new { blocks := [], last := some "tip" } =
        .ok { current_hash := "tip", db := { blocks := [], last := some "tip" } } :=
  ⟨blockchain_new_behavior.1 { blocks := [], last := none } rfl,
   blockchain_new_behavior.2 { blocks := [], last := some "tip" } "tip" rfl⟩

/-- C10.  `Transaction::hash` leaves the receiver with an empty `id` and
untouched `vin`/`vout`, and returns the hex SHA-256 of the serialization of
the transaction with cleared `id`; the digest (a nonempty 8-character string
in this model) is not written back to the receiver. -/
theorem transaction_hash_frame (tx : Transaction) :
    (tx.hash).2.id = "" ∧ (tx.hash).2.vin = tx.vin ∧ (tx.hash).2.vout = tx.vout
      ∧ (tx.hash).1 = sha256hex (serTransaction { tx with id := "" })
      ∧ (tx.hash).2.id ≠ (tx.hash).1 := by
  refine ⟨rfl, rfl, rfl, rfl, ?_⟩
  intro h
  have hd := congrArg String.data h
  simp [Transaction.hash, sha256hex, hexPad, String.mk] at hd

/-! ### List helper lemmas -/

theorem listGetMap {a b : Type} (f : a → b) :
    ∀ (l : List a) (i : Nat), (l.map f).get? i = (l.get? i).map f := by
  intro l
  induction l with
  | nil => intro i; cases i <;> rfl
  | cons x xs ih => intro i; cases i with
    | zero => rfl
    | succ j => exact ih j

theorem listSetMap {a b : Type} (f : a → b) :
    ∀ (l : List a) (i : Nat) (x : a), (l.set i x).map f = (l.map f).set i (f x) := by
  intro l
  induction l with
  | nil => intro i x; rfl
  | cons y ys ih => intro i x; cases i with
    | zero => rfl
    | succ j => simp [List.set, ih j x]

theorem listSetGetSelf {a : Type} :
    ∀ (l : List a) (i : Nat) (x : a), l.get? i = some x → l.set i x = l := by
  intro l
  induction l with
  | nil => intro i x h; cases i <;> cases h
  | cons y ys ih => intro i x h; cases i with
    | zero => cases h; rfl
    | succ j => simp [List.set]; exact ih j x h

theorem listGetSetEq {a : Type} :
    ∀ (l : List a) (i : Nat) (x y : a), l.get? i = some y → (l.set i x).get? i = some x := by
  intro l
  induction l with
  | nil => intro i x y h; cases i <;> cases h
  | cons z zs ih => intro i x y h; cases i with
    | zero => rfl
    | succ j => exact ih j x y h

theorem listGetSetNe {a : Type} :
    ∀ (l : List a) (i j : Nat) (x : a), i ≠ j → (l.set i x).get? j = l.get? j := by
  intro l
  induction l with
  | nil => intro i j x hne; rfl
  | cons z zs ih =>
    intro i j x hne
    cases i with
    | zero => cases j with
      | zero => exact absurd rfl hne
      | succ m => rfl
    | succ n => cases j with
      | zero => rfl
      | succ m => exact ih n m x (fun hh => hne (by rw [hh]))

theorem listGetMem {a : Type} :
    ∀ (l : List a) (i : Nat) (x : a), l.get? i = some x → x ∈ l := by
  intro l
  induction l with
  | nil => intro i x h; cases i <;> cases h
  | cons z zs ih => intro i x h; cases i with
    | zero => cases h; exact List.mem_cons_self z zs
    | succ j => exact List.mem_cons_of_mem z (ih j x h)

/-! ### The sign/verify lockstep -/

theorem signLoop_lockstep (sk : Bytes) (prev : List (String × Transaction)) :
    ∀ (idxs : List Nat) (txCopy self self2 : Transaction),
      txCopy.vin = self.vin.map trimInput →
      (∀ v ∈ self.vin, v.pub_key = ed25519PubOf sk) →
      idxs.Nodup →
      signLoop sk prev idxs txCopy self = .ok self2 →
      verifyLoop prev idxs txCopy self2 = .ok true
        ∧ self2.id = self.id ∧ self2.vout = self.vout
        ∧ self2.vin.map trimInput = self.vin.map trimInput
        ∧ self2.vin.map TXInput.pub_key = self.vin.map TXInput.pub_key
        ∧ (∀ j, j ∉ idxs → self2.vin.get? j = self.vin.get? j) := by
  intro idxs
  induction idxs with
  | nil =>
    intro txCopy self self2 hc hpk hnd h
    simp only [signLoop] at h
    injection h with h
    subst h
    exact ⟨rfl, rfl, rfl, rfl, rfl, fun j _ => rfl⟩
  | cons i rest ih =>
    intro txCopy self self2 hc hpk hnd h
    have hnd1 : i ∉ rest := (List.nodup_cons.mp hnd).1
    have hnd2 : rest.Nodup := (List.nodup_cons.mp hnd).2
    simp only [signLoop] at h
    -- the scrutinees
    cases hsv : self.vin.get? i with
    | none =>
      rw [hc, listGetMap, hsv] at h
      simp at h
    | some sv0 =>
      have hcv : txCopy.vin.get? i = some (trimInput sv0) := by
        rw [hc, listGetMap, hsv]; rfl
      rw [hcv] at h
      simp only at h
      cases hprev : mapGet prev (trimInput sv0).txid with
      | none => rw [hprev] at h; simp at h
      | some prevTx =>
        rw [hprev] at h
        simp only at h
        cases hout : prevOutputAt prevTx (trimInput sv0).vout with
        | none => rw [hout] at h; simp at h
        | some out =>
          rw [hout] at h
          simp only at h
          rw [hsv] at h
          simp only at h
          -- names for the intermediate values
          set cv := trimInput sv0 with hcvdef
          set c1 : Transaction :=
            { txCopy with vin := txCopy.vin.set i { cv with signature := [], pub_key := out.pub_key_hash } } with hc1
          set newId := txHashOf c1 with hnewId
          set sig := ed25519Signature (strBytes newId) sk with hsig
          -- sign's running copy after this round
          have hcvtrim : ({ cv with signature := [], pub_key := [] } : TXInput) = cv := rfl
          have hc3vin : (c1.vin.set i { cv with signature := [], pub_key := [] }) = txCopy.vin := by
            rw [hcvtrim]
            show (txCopy.vin.set i _).set i cv = txCopy.vin
            rw [List.set_set]
            exact listSetGetSelf txCopy.vin i cv hcv
          -- invariants for the recursive call
          have hselfNewTrim :
              (self.vin.set i { sv0 with signature := sig }).map trimInput = self.vin.map trimInput := by
            rw [listSetMap]
            have : trimInput { sv0 with signature := sig } = trimInput sv0 := rfl
            rw [this]
            exact listSetGetSelf _ i _ (by rw [listGetMap, hsv]; rfl)
          have hcRec :
              ({ c1 with id := newId, vin := c1.vin.set i { cv with signature := [], pub_key := [] } } : Transaction).vin
                = (({ self with vin := self.vin.set i { sv0 with signature := sig } } : Transaction)).vin.map trimInput := by
            show c1.vin.set i { cv with signature := [], pub_key := [] } = _
            rw [hc3vin, hselfNewTrim]
            exact hc
          have hpkRec : ∀ v ∈ (({ self with vin := self.vin.set i { sv0 with signature := sig } } : Transaction)).vin,
              v.pub_key = ed25519PubOf sk := by
            intro v hv
            rcases List.mem_or_eq_of_mem_set hv with hv1 | hv2
            · exact hpk v hv1
            · subst hv2
              exact hpk sv0 (listGetMem self.vin i sv0 hsv)
          obtain ⟨hver, hid, hvout, htrim, hpkm, hframe⟩ :=
            ih _ _ self2 hcRec hpkRec hnd2 h
          -- facts about self2 at index i
          have hself2i : self2.vin.get? i = some { sv0 with signature := sig } := by
            rw [hframe i hnd1]
            exact listGetSetEq self.vin i _ sv0 hsv
          refine ⟨?_, ?_, ?_, ?_, ?_, ?_⟩
          · -- the verify loop accepts
            simp only [verifyLoop]
            rw [hself2i]
            simp only
            show (match mapGet prev sv0.txid with
              | none => Except.error EngineError.panicked
              | some prevTx => _) = Except.ok true
            rw [show mapGet prev sv0.txid = some prevTx from hprev]
            simp only
            show (match prevOutputAt prevTx sv0.vout with
              | none => Except.error EngineError.panicked
              | some out => _) = Except.ok true
            rw [show prevOutputAt prevTx sv0.vout = some out from hout]
            simp only
            rw [hcv]
            simp only
            have hpksv : sv0.pub_key = ed25519PubOf sk := hpk sv0 (listGetMem self.vin i sv0 hsv)
            have hcheck : ed25519Verify (strBytes newId) sv0.pub_key sig = true := by
              rw [hpksv, hsig]
              simp [ed25519Verify, ed25519Signature]
            rw [hcheck]
            simp only [if_pos]
            exact hver
          · exact hid
          · exact hvout
          · rw [htrim]
            exact hselfNewTrim
          · rw [hpkm]
            show (self.vin.set i { sv0 with signature := sig }).map TXInput.pub_key = _
            rw [listSetMap]
            show (self.vin.map TXInput.pub_key).set i sv0.pub_key = _
            exact listSetGetSelf _ i _ (by rw [listGetMap, hsv]; rfl)
          · intro j hj
            have hji : j ≠ i := fun hh => hj (hh ▸ List.mem_cons_self i rest)
            have hjr : j ∉ rest := fun hh => hj (List.mem_cons_of_mem i hh)
            rw [hframe j hjr]
            exact listGetSetNe self.vin i j _ (fun hh => hji hh.symm)

theorem txidMap_of_trimMap {l1 l2 : List TXInput}
    (h : l1.map trimInput = l2.map trimInput) :
    l1.map TXInput.txid = l2.map TXInput.txid := by
  have h1 : ∀ l : List TXInput, l.map TXInput.txid = (l.map trimInput).map TXInput.txid := by
    intro l
    induction l with
    | nil => rfl
    | cons x xs ih => simp [ih]; rfl
  rw [h1 l1, h1 l2, h]

theorem voutMap_of_trimMap {l1 l2 : List TXInput}
    (h : l1.map trimInput = l2.map trimInput) :
    l1.map TXInput.vout = l2.map TXInput.vout := by
  have h1 : ∀ l : List TXInput, l.map TXInput.vout = (l.map trimInput).map TXInput.vout := by
    intro l
    induction l with
    | nil => rfl
    | cons x xs ih => simp [ih]; rfl
  rw [h1 l1, h1 l2, h]

theorem is_coinbase_of_trimMap {t1 t2 : Transaction}
    (h : t1.vin.map trimInput = t2.vin.map trimInput) :
    t1.is_coinbase = t2.is_coinbase := by
  unfold Transaction.is_coinbase
  have hlen : t1.vin.length = t2.vin.length := by
    have := congrArg List.length h
    simpa using this
  cases h1 : t1.vin with
  | nil =>
    cases h2 : t2.vin with
    | nil => rfl
    | cons y ys => rw [h1, h2] at hlen; simp at hlen
  | cons x xs =>
    cases h2 : t2.vin with
    | nil => rw [h1, h2] at hlen; simp at hlen
    | cons y ys =>
      rw [h1, h2] at hlen
      rw [h1, h2] at h
      simp only [List.map] at h
      have hx : trimInput x = trimInput y := (List.cons.injEq _ _ _ _ ▸ h).1
      have hx2 : x.txid = y.txid ∧ x.vout = y.vout := by
        have h3 := hx
        simp only [trimInput, TXInput.mk.injEq] at h3
        exact ⟨h3.1, h3.2.1⟩
      simp [hlen, hx2.1, hx2.2]

theorem checkPrev_congr (prev : List (String × Transaction)) :
    ∀ (l1 l2 : List TXInput), l1.map TXInput.txid = l2.map TXInput.txid →
      checkPrevTxs prev l1 = checkPrevTxs prev l2 := by
  intro l1
  induction l1 with
  | nil =>
    intro l2 h
    cases l2 with
    | nil => rfl
    | cons y ys => simp at h
  | cons x xs ih =>
    intro l2 h
    cases l2 with
    | nil => simp at h
    | cons y ys =>
      simp only [List.map] at h
      have hx : x.txid = y.txid := (List.cons.injEq _ _ _ _ ▸ h).1
      have hxs : xs.map TXInput.txid = ys.map TXInput.txid := (List.cons.injEq _ _ _ _ ▸ h).2
      simp only [checkPrevTxs, hx]
      cases mapGet prev y.txid with
      | none => rfl
      | some p =>
        simp only
        by_cases hid : p.id = ""
        · simp [hid]
        · simp [hid, ih ys hxs]

/-- C2.  A transaction signed by `sign` with the matching secret key verifies:
if every input's `pub_key` is the Ed25519 public key of the signing secret
key and `sign` succeeds, `verify` returns `Ok(true)` on the signed
transaction; and `verify` accepts any coinbase transaction unconditionally. -/
theorem sign_verify_roundtrip :
    (∀ (tx : Transaction) (sk : Bytes) (prev : List (String × Transaction)) (tx2 : Transaction),
      (∀ v ∈ tx.vin, v.pub_key = ed25519PubOf sk) →
      tx.sign sk prev = .ok tx2 →
      tx2.verify prev = .ok true)
      ∧ (∀ (tx : Transaction) (prev : List (String × Transaction)),
          tx.is_coinbase = true → tx.verify prev = .ok true) := by
  constructor
  · intro tx sk prev tx2 hpk hs
    unfold Transaction.sign at hs
    cases hcb : tx.is_coinbase with
    | true =>
      rw [hcb] at hs
      simp at hs
      subst hs
      unfold Transaction.verify
      rw [hcb]
      simp
    | false =>
      rw [hcb] at hs
      simp only [Bool.false_eq_true, if_false] at hs
      cases hchk : checkPrevTxs prev tx.vin with
      | error e => rw [hchk] at hs; cases hs
      | ok u =>
        cases u
        rw [hchk, exceptBindOk] at hs
        have hc0 : tx.trim_copy.vin = tx.vin.map trimInput := rfl
        obtain ⟨hver, hid, hvout, htrim, hpkm, hframe⟩ :=
          signLoop_lockstep sk prev (List.range tx.trim_copy.vin.length)
            tx.trim_copy tx tx2 hc0 hpk (List.nodup_range _) hs
        -- the signed transaction is not a coinbase either
        have hcb2 : tx2.is_coinbase = false := by
          rw [is_coinbase_of_trimMap htrim, hcb]
        unfold Transaction.verify
        rw [hcb2]
        simp only [Bool.false_eq_true, if_false]
        have hchk2 : checkPrevTxs prev tx2.vin = .ok () := by
          rw [checkPrev_congr prev tx2.vin tx.vin (txidMap_of_trimMap htrim), hchk]
        rw [hchk2, exceptBindOk]
        -- the trimmed copies coincide
        have htc : tx2.trim_copy = tx.trim_copy := by
          unfold Transaction.trim_copy
          rw [hid, hvout]
          have : tx2.vin.map trimInput = tx.vin.map trimInput := htrim
          rw [this]
        have hlen2 : tx2.vin.length = tx.vin.length := by
          simpa using congrArg List.length htrim
        have hlen3 : tx.trim_copy.vin.length = tx.vin.length := by
          simp [Transaction.trim_copy]
        rw [htc, hlen2]
        rw [hlen3] at hver
        exact hver
  · intro tx prev hcb
    unfold Transaction.verify
    rw [hcb]
    simp


/-- Witness for C2: the concrete signed transaction verifies. -/
theorem sign_verify_roundtrip_witness :
    witTx.sign witSk [("t0", witPrevTx)] = .ok witSigned
      ∧ witSigned.verify [("t0", witPrevTx)] = .ok true :=
  ⟨rfl, sign_verify_roundtrip.1 witTx witSk [("t0", witPrevTx)] witSigned (by decide) rfl⟩

/-! ### C4: conservation lemmas -/

theorem mapGetOfMem {a : Type} :
    ∀ (m : List (String × a)) (k : String) (v : a),
      (m.map Prod.fst).Nodup → (k, v) ∈ m → mapGet m k = some v := by
  intro m
  induction m with
  | nil => intro k v _ hm; cases hm
  | cons p rest ih =>
    intro k v hnd hm
    have hnd1 := List.nodup_cons.mp hnd
    cases hm with
    | head => simp [mapGet]
    | tail _ hmem =>
      have hne : p.1 ≠ k := by
        intro he
        apply hnd1.1
        rw [he]
        exact List.mem_map.mpr ⟨(k, v), hmem, rfl⟩
      simp only [mapGet, List.find?]
      rw [show (p.1 == k) = false from beq_eq_false_iff_ne.mpr hne]
      exact ih k v hnd1.2 hmem

theorem selPush_sum (db : UtxoDb) :
    ∀ (sel : List (String × List Int)) (k : String) (i : Int),
      selSum db (selPush sel k i) = selSum db sel + valueAt db k i := by
  intro sel
  induction sel with
  | nil => intro k i; simp [selPush, selSum, idxsSum]
  | cons p rest ih =>
    intro k i
    by_cases hk : p.1 = k
    · simp only [selPush, hk, if_pos rfl]
      simp [selSum, idxsSum, hk]
      omega
    · simp only [selPush, if_neg hk]
      simp [selSum] at ih ⊢
      rw [ih]
      omega

theorem dropGet {a : Type} :
    ∀ (l : List a) (n : Nat) (o : a) (rest : List a),
      l.drop n = o :: rest → l.get? n = some o ∧ l.drop (n + 1) = rest := by
  intro l
  induction l with
  | nil => intro n o rest h; simp [List.drop] at h
  | cons z zs ih =>
    intro n o rest h
    cases n with
    | zero =>
      simp [List.drop] at h
      exact ⟨by rw [h.1]; rfl, by simpa using h.2⟩
    | succ m => exact ih m o rest h

theorem spendScan_sum (db : UtxoDb) (addr : Bytes) (amount : Int)
    (txid : String) (routs : TXOutputs) (hdb : mapGet db txid = some routs) :
    ∀ (outs : List TXOutput) (n : Nat) (acc : Int) (sel : List (String × List Int)),
      routs.outputs.drop n = outs →
      selSum db sel = acc →
      selSum db (spendScanOutputs addr amount txid n (acc, sel) outs).2
        = (spendScanOutputs addr amount txid n (acc, sel) outs).1 := by
  intro outs
  induction outs with
  | nil => intro n acc sel _ hsum; simpa [spendScanOutputs] using hsum
  | cons o rest ih =>
    intro n acc sel hdrop hsum
    obtain ⟨hget, hdrop1⟩ := dropGet routs.outputs n o rest hdrop
    have hval : valueAt db txid (n : Int) = o.value := by
      have hpos : ¬((n : Int) < 0) := by omega
      simp only [valueAt, hdb, if_neg hpos, Int.toNat_natCast, hget]
    simp only [spendScanOutputs]
    by_cases hcond : (o.is_locked_with_key addr && decide (acc < amount)) = true
    · rw [if_pos hcond]
      exact ih (n + 1) (acc + o.value) (selPush sel txid (n : Int)) hdrop1
        (by rw [selPush_sum, hsum, hval])
    · rw [if_neg hcond]
      exact ih (n + 1) acc sel hdrop1 hsum

theorem findSpendable_sum_aux (db : UtxoDb) (addr : Bytes) (amount : Int) :
    ∀ (es : List (String × TXOutputs)) (acc : Int) (sel : List (String × List Int)),
      (∀ p ∈ es, mapGet db p.1 = some p.2) →
      selSum db sel = acc →
      selSum db (es.foldl (fun st entry => spendScanOutputs addr amount entry.1 0 st entry.2.outputs) (acc, sel)).2
        = (es.foldl (fun st entry => spendScanOutputs addr amount entry.1 0 st entry.2.outputs) (acc, sel)).1 := by
  intro es
  induction es with
  | nil => intro acc sel _ hsum; simpa using hsum
  | cons p rest ih =>
    intro acc sel hmem hsum
    simp only [List.foldl]
    have hstep := spendScan_sum db addr amount p.1 p.2 (hmem p (List.mem_cons_self p rest))
      p.2.outputs 0 acc sel rfl hsum
    have : spendScanOutputs addr amount p.1 0 (acc, sel) p.2.outputs
        = ((spendScanOutputs addr amount p.1 0 (acc, sel) p.2.outputs).1,
           (spendScanOutputs addr amount p.1 0 (acc, sel) p.2.outputs).2) := rfl
    rw [this]
    exact ih _ _ (fun q hq => hmem q (List.mem_cons_of_mem p hq)) hstep

theorem findSpendable_sum (db : UtxoDb) (addr : Bytes) (amount : Int)
    (hnd : (db.map Prod.fst).Nodup) :
    selSum db (UTXOSet.find_spendable_outputs db addr amount).2
      = (UTXOSet.find_spendable_outputs db addr amount).1 := by
  unfold UTXOSet.find_spendable_outputs
  exact findSpendable_sum_aux db addr amount db 0 []
    (fun p hp => mapGetOfMem db p.1 p.2 hnd (by cases p; exact hp))
    (by simp [selSum])

theorem signLoop_frame (sk : Bytes) (prev : List (String × Transaction)) :
    ∀ (idxs : List Nat) (txCopy self self2 : Transaction),
      signLoop sk prev idxs txCopy self = .ok self2 →
      self2.id = self.id ∧ self2.vout = self.vout
        ∧ self2.vin.map trimInput = self.vin.map trimInput := by
  intro idxs
  induction idxs with
  | nil =>
    intro txCopy self self2 h
    simp only [signLoop] at h
    injection h with h
    subst h
    exact ⟨rfl, rfl, rfl⟩
  | cons i rest ih =>
    intro txCopy self self2 h
    simp only [signLoop] at h
    cases hcv : txCopy.vin.get? i with
    | none => rw [hcv] at h; simp at h
    | some cv =>
      rw [hcv] at h
      simp only at h
      cases hprev : mapGet prev cv.txid with
      | none => rw [hprev] at h; simp at h
      | some prevTx =>
        rw [hprev] at h
        simp only at h
        cases hout : prevOutputAt prevTx cv.vout with
        | none => rw [hout] at h; simp at h
        | some out =>
          rw [hout] at h
          simp only at h
          cases hsv : self.vin.get? i with
          | none => rw [hsv] at h; simp at h
          | some sv =>
            rw [hsv] at h
            simp only at h
            obtain ⟨hid, hvout, htrim⟩ := ih _ _ self2 h
            refine ⟨hid, hvout, ?_⟩
            rw [htrim]
            show (self.vin.set i _).map trimInput = _
            rw [listSetMap]
            have htrimsig : ∀ s : Bytes, trimInput { sv with signature := s } = trimInput sv :=
              fun s => rfl
            rw [htrimsig]
            exact listSetGetSelf _ i _ (by rw [listGetMap, hsv]; rfl)

theorem sign_frame (tx : Transaction) (sk : Bytes) (prev : List (String × Transaction))
    (tx2 : Transaction) (h : tx.sign sk prev = .ok tx2) :
    tx2.id = tx.id ∧ tx2.vout = tx.vout ∧ tx2.vin.map trimInput = tx.vin.map trimInput := by
  unfold Transaction.sign at h
  cases hcb : tx.is_coinbase with
  | true =>
    rw [hcb] at h
    simp at h
    subst h
    exact ⟨rfl, rfl, rfl⟩
  | false =>
    rw [hcb] at h
    simp only [Bool.false_eq_true, if_false] at h
    cases hchk : checkPrevTxs prev tx.vin with
    | error e => rw [hchk] at h; cases h
    | ok u =>
      cases u
      rw [hchk, exceptBindOk] at h
      exact signLoop_frame sk prev _ _ _ _ h

theorem sign_transaction_frame (bc : Blockchain) (tx : Transaction) (sk : Bytes)
    (tx2 : Transaction) (h : bc.sign_transaction tx sk = .ok tx2) :
    tx2.id = tx.id ∧ tx2.vout = tx.vout ∧ tx2.vin.map trimInput = tx.vin.map trimInput := by
  unfold Blockchain.sign_transaction at h
  cases hp : bc.get_prev_txs tx with
  | error e => rw [hp] at h; cases h
  | ok prev =>
    rw [hp, exceptBindOk] at h
    exact sign_frame tx sk prev tx2 h

theorem pairsMap_of_trimMap {l1 l2 : List TXInput}
    (h : l1.map trimInput = l2.map trimInput) :
    l1.map (fun v => (v.txid, v.vout)) = l2.map (fun v => (v.txid, v.vout)) := by
  have h1 : ∀ l : List TXInput,
      l.map (fun v => (v.txid, v.vout)) = (l.map trimInput).map (fun v => (v.txid, v.vout)) := by
    intro l
    induction l with
    | nil => rfl
    | cons x xs ih => simp [ih]; exact ⟨rfl, rfl⟩
  rw [h1 l1, h1 l2, h]

theorem vinPairs_construction (pk : Bytes) :
    ∀ sel : List (String × List Int),
      (((sel.map (fun p => p.2.map (fun out =>
          ({ txid := p.1, vout := out, signature := [], pub_key := pk } : TXInput)))).flatten).map
        (fun v => (v.txid, v.vout))) = selPairs sel := by
  intro sel
  induction sel with
  | nil => rfl
  | cons p rest ih =>
    simp only [List.map, List.flatten_cons, List.map_append, ih, selPairs]
    simp [List.map_map]

theorem selPairs_sum (db : UtxoDb) :
    ∀ sel : List (String × List Int),
      (((selPairs sel).map (fun q => valueAt db q.1 q.2)).sum) = selSum db sel := by
  intro sel
  induction sel with
  | nil => rfl
  | cons p rest ih =>
    simp only [selPairs, List.map, List.flatten_cons, List.map_append, List.sum_append] at ih ⊢
    rw [ih]
    simp [selSum, idxsSum, List.map_map]
    rfl

/-- C4.  A transfer built by `new_utxo` pays exactly `amount` to the
recipient's public-key hash plus, exactly when the selected total exceeds
`amount`, one change output back to the sender; its output values sum to the
selected total, which equals the summed values of the index records the
selection references, which in turn equals the summed values referenced by
the transaction's inputs. -/
theorem new_utxo_conservation
    (wallets : WalletMap) (db : UtxoDb) (bc : Blockchain) (toA fromA : String) (amount : Int)
    (w : Wallet) (tx : Transaction) (acc : Int) (sel : List (String × List Int))
    (hw : walletGet wallets fromA = some w)
    (hnd : (db.map Prod.fst).Nodup)
    (hacc : UTXOSet.find_spendable_outputs db (hashPubKey w.public_key) amount = (acc, sel))
    (hok : Transaction.new_utxo wallets db bc toA fromA amount = .ok tx) :
    tx.vout = [TXOutput.new amount toA]
        ++ (if acc > amount then [TXOutput.new (acc - amount) fromA] else [])
      ∧ (tx.vout.map TXOutput.value).sum = acc
      ∧ acc = selSum db sel
      ∧ tx.vin.map (fun v => (v.txid, v.vout)) = selPairs sel
      ∧ (tx.vin.map (fun v => valueAt db v.txid v.vout)).sum = (tx.vout.map TXOutput.value).sum := by
  have hsum : selSum db sel = acc := by
    have := findSpendable_sum db (hashPubKey w.public_key) amount hnd
    rw [hacc] at this
    exact this
  unfold Transaction.new_utxo at hok
  rw [hw] at hok
  cases hto : walletGet wallets toA with
  | none => rw [hto] at hok; cases hok
  | some w2 =>
    rw [hto] at hok
    simp only [hacc] at hok
    by_cases hlt : acc < amount
    · rw [if_pos hlt] at hok; cases hok
    · rw [if_neg hlt] at hok
      obtain ⟨hid, hvout, htrim⟩ := sign_transaction_frame bc _ w.secret_key tx hok
      have hvoutval : tx.vout = [TXOutput.new amount toA]
          ++ (if acc > amount then [TXOutput.new (acc - amount) fromA] else []) := by
        rw [hvout]
        by_cases hgt : acc > amount
        · rw [if_pos hgt, if_pos hgt]
        · rw [if_neg hgt, if_neg hgt]
          simp
      have hvinpairs : tx.vin.map (fun v => (v.txid, v.vout)) = selPairs sel := by
        have h1 := pairsMap_of_trimMap htrim
        rw [h1]
        exact vinPairs_construction w.public_key sel
      have hge : amount ≤ acc := not_lt.mp hlt
      have hsumvout : (tx.vout.map TXOutput.value).sum = acc := by
        rw [hvoutval]
        by_cases hgt : acc > amount
        · rw [if_pos hgt]
          simp [TXOutput.new]
        · rw [if_neg hgt]
          simp [TXOutput.new]
          omega
      refine ⟨hvoutval, hsumvout, hsum.symm, hvinpairs, ?_⟩
      have hmm : tx.vin.map (fun v => valueAt db v.txid v.vout)
          = ((tx.vin.map (fun v => (v.txid, v.vout))).map (fun q => valueAt db q.1 q.2)) := by
        simp [List.map_map]
      rw [hmm, hvinpairs, selPairs_sum, hsum, hsumvout]

/-! ### C8: insufficient funds -/

theorem checkPrev_no_insufficient (prev : List (String × Transaction)) :
    ∀ (l : List TXInput) (e : Int), checkPrevTxs prev l ≠ .error (.insufficientFunds e) := by
  intro l
  induction l with
  | nil => intro e h; cases h
  | cons v rest ih =>
    intro e h
    simp only [checkPrevTxs] at h
    cases hp : mapGet prev v.txid with
    | none => rw [hp] at h; cases h
    | some p =>
      rw [hp] at h
      simp only at h
      by_cases hid : p.id = ""
      · rw [if_pos hid] at h; cases h
      · rw [if_neg hid] at h
        exact ih e h

theorem signLoop_no_insufficient (sk : Bytes) (prev : List (String × Transaction)) :
    ∀ (idxs : List Nat) (txCopy self : Transaction) (e : Int),
      signLoop sk prev idxs txCopy self ≠ .error (.insufficientFunds e) := by
  intro idxs
  induction idxs with
  | nil => intro txCopy self e h; cases h
  | cons i rest ih =>
    intro txCopy self e h
    simp only [signLoop] at h
    cases hcv : txCopy.vin.get? i with
    | none => rw [hcv] at h; cases h
    | some cv =>
      rw [hcv] at h
      simp only at h
      cases hp : mapGet prev cv.txid with
      | none => rw [hp] at h; cases h
      | some prevTx =>
        rw [hp] at h
        simp only at h
        cases ho : prevOutputAt prevTx cv.vout with
        | none => rw [ho] at h; cases h
        | some out =>
          rw [ho] at h
          simp only at h
          cases hsv : self.vin.get? i with
          | none => rw [hsv] at h; cases h
          | some sv =>
            rw [hsv] at h
            simp only at h
            exact ih _ _ e h

theorem sign_no_insufficient (tx : Transaction) (sk : Bytes)
    (prev : List (String × Transaction)) (e : Int) :
    tx.sign sk prev ≠ .error (.insufficientFunds e) := by
  intro h
  unfold Transaction.sign at h
  cases hcb : tx.is_coinbase with
  | true => rw [hcb] at h; simp at h
  | false =>
    rw [hcb] at h
    simp only [Bool.false_eq_true, if_false] at h
    cases hchk : checkPrevTxs prev tx.vin with
    | error e2 =>
      rw [hchk] at h
      injection h with h2
      subst h2
      exact checkPrev_no_insufficient prev tx.vin e hchk
    | ok u =>
      cases u
      rw [hchk, exceptBindOk] at h
      exact signLoop_no_insufficient sk prev _ _ _ e h

theorem getPrevTxs_no_insufficient (bc : Blockchain) :
    ∀ (l : List TXInput) (m : List (String × Transaction)) (e : Int),
      (l.foldlM (fun m vin => do
        let prevTx ← bc.find_transaction vin.txid
        pure (mapInsert m prevTx.id prevTx)) m) ≠ .error (.insufficientFunds e) := by
  intro l
  induction l with
  | nil => intro m e h; cases h
  | cons v rest ih =>
    intro m e h
    simp only [List.foldlM] at h
    cases hf : bc.find_transaction v.txid with
    | error e2 =>
      rw [hf, exceptBindError] at h
      injection h with h2
      unfold Blockchain.find_transaction at hf
      cases hfind : (((bc.iterBlocks.map Block.transactions).flatten).find? (fun tx => tx.id == v.txid)) with
      | none =>
        rw [hfind] at hf
        injection hf with hf2
        rw [← hf2] at h2
        cases h2
      | some t => rw [hfind] at hf; cases hf
    | ok prevTx =>
      rw [hf, exceptBindOk] at h
      exact ih _ e h

theorem sign_transaction_no_insufficient (bc : Blockchain) (tx : Transaction)
    (sk : Bytes) (e : Int) :
    bc.sign_transaction tx sk ≠ .error (.insufficientFunds e) := by
  intro h
  unfold Blockchain.sign_transaction at h
  cases hp : bc.get_prev_txs tx with
  | error e2 =>
    rw [hp] at h
    injection h with h2
    subst h2
    exact getPrevTxs_no_insufficient bc tx.vin [] e hp
  | ok prev =>
    rw [hp, exceptBindOk] at h
    exact sign_no_insufficient tx sk prev e h

/-- C8.  `new_utxo` fails with `InsufficientFunds` carrying the accumulated
value exactly when `find_spendable_outputs` accumulates strictly less than
the requested amount; the `send` command then surfaces that error without
touching the stores, so balances are unchanged. -/
theorem insufficient_funds_clean
    (wallets : WalletMap) (s : SysState) (toA fromA : String) (amount : Int) (w : Wallet)
    (hw : walletGet wallets fromA = some w)
    (hto : (walletGet wallets toA).isSome = true) :
    ((UTXOSet.find_spendable_outputs s.utxo (hashPubKey w.public_key) amount).1 < amount →
        Transaction.new_utxo wallets s.utxo s.bc toA fromA amount
            = .error (.insufficientFunds
              (UTXOSet.find_spendable_outputs s.utxo (hashPubKey w.public_key) amount).1)
          ∧ ∀ (ts fuel : Nat),
              cmdSend wallets ts fuel toA fromA amount s
                  = .error (.insufficientFunds
                    (UTXOSet.find_spendable_outputs s.utxo (hashPubKey w.public_key) amount).1)
                ∧ recoverState s (cmdSend wallets ts fuel toA fromA amount s) = s
                ∧ ∀ a : String,
                    getBalance (recoverState s (cmdSend wallets ts fuel toA fromA amount s)) a
                      = getBalance s a)
      ∧ (∀ e : Int,
          Transaction.new_utxo wallets s.utxo s.bc toA fromA amount
              = .error (.insufficientFunds e) →
          (UTXOSet.find_spendable_outputs s.utxo (hashPubKey w.public_key) amount).1 < amount
            ∧ e = (UTXOSet.find_spendable_outputs s.utxo (hashPubKey w.public_key) amount).1) := by
  obtain ⟨w2, hto2⟩ := Option.isSome_iff_exists.mp hto
  have hnu : ∀ h1 : (UTXOSet.find_spendable_outputs s.utxo (hashPubKey w.public_key) amount).1 < amount,
      Transaction.new_utxo wallets s.utxo s.bc toA fromA amount
        = .error (.insufficientFunds
          (UTXOSet.find_spendable_outputs s.utxo (hashPubKey w.public_key) amount).1) := by
    intro h1
    unfold Transaction.new_utxo
    rw [hw, hto2]
    simp only [if_pos h1]
  constructor
  · intro h1
    refine ⟨hnu h1, ?_⟩
    intro ts fuel
    have hcs : cmdSend wallets ts fuel toA fromA amount s
        = .error (.insufficientFunds
          (UTXOSet.find_spendable_outputs s.utxo (hashPubKey w.public_key) amount).1) := by
      unfold cmdSend
      rw [hnu h1, exceptBindError]
    refine ⟨hcs, ?_, ?_⟩
    · rw [hcs]; rfl
    · intro a; rw [hcs]; rfl
  · intro e he
    unfold Transaction.new_utxo at he
    simp only [hw] at he
    simp only [hto2] at he
    by_cases h1 : (UTXOSet.find_spendable_outputs s.utxo (hashPubKey w.public_key) amount).1 < amount
    · rw [if_pos h1] at he
      injection he with he2
      injection he2 with he3
      exact ⟨h1, he3.symm⟩
    · rw [if_neg h1] at he
      exact absurd he (sign_transaction_no_insufficient s.bc _ w.secret_key e)


set_option maxRecDepth 8000 in
/-- Witness for C4 at the first transfer of the concrete run. -/
theorem new_utxo_conservation_witness :
    Transaction.new_utxo scenWallets genState.utxo genState.bc addrB addrA 30 = .ok c4Tx
      ∧ c4Tx.vout = [TXOutput.new 30 addrB] ++ [TXOutput.new 70 addrA]
      ∧ (c4Tx.vout.map TXOutput.value).sum = 100
      ∧ (c4Tx.vin.map (fun v => valueAt genState.utxo v.txid v.vout)).sum
        = (c4Tx.vout.map TXOutput.value).sum := by
  have h := new_utxo_conservation scenWallets genState.utxo genState.bc addrB addrA 30
    walletA c4Tx 100 [("0005fb8b", [0])] (by decide) (by decide) (by decide) rfl
  have h1 := h.1
  rw [if_pos (by decide : (100 : Int) > 30)] at h1
  exact ⟨rfl, h1, h.2.1, h.2.2.2.2⟩

set_option maxRecDepth 8000 in
/-- Witness for C8: requesting 999 from a wallet holding 100 fails with
`InsufficientFunds 100` and the balance still reads 100. -/
theorem insufficient_funds_clean_witness :
    Transaction.new_utxo scenWallets genState.utxo genState.bc addrB addrA 999
        = .error (.insufficientFunds 100)
      ∧ cmdSend scenWallets 2000 64 addrB addrA 999 genState = .error (.insufficientFunds 100)
      ∧ recoverState genState (cmdSend scenWallets 2000 64 addrB addrA 999 genState) = genState
      ∧ getBalance (recoverState genState (cmdSend scenWallets 2000 64 addrB addrA 999 genState)) addrA = 100
      ∧ getBalance genState addrA = 100 := by
  have hacc : (UTXOSet.find_spendable_outputs genState.utxo (hashPubKey walletA.public_key) 999).1
      = 100 := by decide
  have h := (insufficient_funds_clean scenWallets genState addrB addrA 999 walletA
    (by decide) (by decide)).1 (by decide)
  rw [hacc] at h
  obtain ⟨hnu, hrest⟩ := h
  obtain ⟨hcs, hrec, hbal⟩ := hrest 2000 64
  exact ⟨hnu, hcs, hrec, by rw [hbal addrA]; decide, by decide⟩


/-! ### C6: find_utxo compaction -/

theorem foldl_flatten {a b : Type} (f : b → a → b) :
    ∀ (ls : List (List a)) (init : b),
      (ls.flatten).foldl f init = ls.foldl (fun st l => l.foldl f st) init := by
  intro ls
  induction ls with
  | nil => intro init; rfl
  | cons l rest ih =>
    intro init
    simp only [List.flatten_cons, List.foldl_append, List.foldl]
    exact ih (l.foldl f init)

theorem find_utxo_as_flat (bc : Blockchain) :
    bc.find_utxo = ((chainTransactions bc).foldl scanTx ([], [])).1 := by
  unfold Blockchain.find_utxo chainTransactions
  rw [foldl_flatten scanTx, List.foldl_map]

theorem utxoPush_get_other :
    ∀ (u : List (String × TXOutputs)) (k k1 : String) (o : TXOutput), k ≠ k1 →
      mapGet (utxoPush u k o) k1 = mapGet u k1 := by
  intro u
  induction u with
  | nil =>
    intro k k1 o hne
    simp [utxoPush, mapGet, List.find?, beq_eq_false_iff_ne.mpr hne]
  | cons p rest ih =>
    intro k k1 o hne
    simp only [utxoPush]
    by_cases hpk : p.1 = k
    · rw [if_pos hpk]
      simp only [mapGet, List.find?]
      rw [show (p.1 == k1) = false from beq_eq_false_iff_ne.mpr (by rw [hpk]; exact hne)]
    · rw [if_neg hpk]
      simp only [mapGet, List.find?]
      cases hc : (p.1 == k1) with
      | true => rfl
      | false => exact ih k k1 o hne

theorem utxoPush_get_same :
    ∀ (u : List (String × TXOutputs)) (k : String) (o : TXOutput),
      mapGet (utxoPush u k o) k = some ⟨((mapGet u k).getD ⟨[]⟩).outputs ++ [o]⟩ := by
  intro u
  induction u with
  | nil =>
    intro k o
    simp [utxoPush, mapGet, List.find?]
  | cons p rest ih =>
    intro k o
    simp only [utxoPush]
    by_cases hpk : p.1 = k
    · rw [if_pos hpk]
      simp only [mapGet, List.find?]
      rw [show (p.1 == k) = true from beq_iff_eq.mpr hpk]
      simp
    · rw [if_neg hpk]
      simp only [mapGet, List.find?]
      rw [show (p.1 == k) = false from beq_eq_false_iff_ne.mpr hpk]
      exact ih k o

theorem scanOut_get_other (spent : List (String × List Int)) (txid k1 : String)
    (hne : txid ≠ k1) :
    ∀ (outs : List TXOutput) (n : Nat) (u : List (String × TXOutputs)),
      mapGet (scanOutputsFrom spent txid u n outs) k1 = mapGet u k1 := by
  intro outs
  induction outs with
  | nil => intro n u; rfl
  | cons o rest ih =>
    intro n u
    simp only [scanOutputsFrom]
    by_cases hk : keepOutput spent txid n = true
    · rw [if_pos hk, ih]
      exact utxoPush_get_other u txid k1 o hne
    · rw [if_neg hk, ih]

theorem scanOut_get_same (spent : List (String × List Int)) (txid : String) :
    ∀ (outs : List TXOutput) (n : Nat) (u : List (String × TXOutputs)),
      mapGet (scanOutputsFrom spent txid u n outs) txid =
        match mapGet u txid with
        | none =>
          if survFrom spent txid n outs = [] then none
          else some ⟨survFrom spent txid n outs⟩
        | some r => some ⟨r.outputs ++ survFrom spent txid n outs⟩ := by
  intro outs
  induction outs with
  | nil =>
    intro n u
    simp only [scanOutputsFrom, survFrom]
    cases hu : mapGet u txid with
    | none => simp
    | some r => simp
  | cons o rest ih =>
    intro n u
    simp only [scanOutputsFrom, survFrom]
    by_cases hk : keepOutput spent txid n = true
    · rw [if_pos hk, if_pos hk, ih]
      rw [utxoPush_get_same]
      cases hu : mapGet u txid with
      | none =>
        simp only [hu, Option.getD]
        cases hs : survFrom spent txid (n + 1) rest with
        | nil => simp
        | cons s ss => simp
      | some r =>
        simp only [hu, Option.getD]
        simp
    · rw [if_neg hk, if_neg hk, ih]

theorem scanTx_get_other (st : List (String × TXOutputs) × List (String × List Int))
    (tx : Transaction) (k : String) (hne : tx.id ≠ k) :
    mapGet ((scanTx st tx).1) k = mapGet st.1 k := by
  unfold scanTx
  exact scanOut_get_other st.2 tx.id k hne tx.vout 0 st.1

theorem foldScan_get_other :
    ∀ (ts : List Transaction) (st : List (String × TXOutputs) × List (String × List Int))
      (k : String), k ∉ ts.map Transaction.id →
      mapGet ((ts.foldl scanTx st).1) k = mapGet st.1 k := by
  intro ts
  induction ts with
  | nil => intro st k _; rfl
  | cons t rest ih =>
    intro st k hk
    have hk1 : t.id ≠ k := by
      intro he
      exact hk (by rw [← he]; exact List.mem_cons_self _ _)
    have hk2 : k ∉ rest.map Transaction.id := by
      intro hm
      exact hk (List.mem_cons_of_mem _ hm)
    simp only [List.foldl]
    rw [ih (scanTx st t) k hk2]
    exact scanTx_get_other st t k hk1

theorem foldScan_spent :
    ∀ (ts : List Transaction) (st : List (String × TXOutputs) × List (String × List Int)),
      (ts.foldl scanTx st).2 = ts.foldl scanInputs st.2 := by
  intro ts
  induction ts with
  | nil => intro st; rfl
  | cons t rest ih =>
    intro st
    simp only [List.foldl]
    rw [ih]
    rfl

set_option maxHeartbeats 1000000 in
/-- C6 amended.  For a chain whose transaction ids are pairwise distinct,
`find_utxo` maps each transaction id to the compacted list of its surviving
outputs, in increasing original-index order: spent outputs shift later
surviving outputs down rather than leaving gaps, and a fully spent
transaction has no entry. -/
theorem find_utxo_compacts (bc : Blockchain) (pre post : List Transaction) (t : Transaction)
    (hsplit : chainTransactions bc = pre ++ t :: post)
    (hnodup : ((chainTransactions bc).map Transaction.id).Nodup) :
    mapGet bc.find_utxo t.id =
      if survivingOutputs pre t = [] then none else some ⟨survivingOutputs pre t⟩ := by
  rw [hsplit] at hnodup
  simp only [List.map_append, List.map_cons, List.nodup_append, List.nodup_cons,
    List.disjoint_cons_right] at hnodup
  have hpre : t.id ∉ pre.map Transaction.id := hnodup.2.2.1
  have hpost : t.id ∉ post.map Transaction.id := hnodup.2.1.1
  rw [find_utxo_as_flat, hsplit]
  rw [List.foldl_append]
  simp only [List.foldl]
  rw [foldScan_get_other post _ t.id hpost]
  have hP1 : mapGet ((pre.foldl scanTx ([], [])).1) t.id = none := by
    rw [foldScan_get_other pre ([], []) t.id hpre]
    rfl
  show mapGet (scanOutputsFrom ((pre.foldl scanTx ([], [])).2) t.id
    ((pre.foldl scanTx ([], [])).1) 0 t.vout) t.id = _
  rw [scanOut_get_same, hP1]
  rw [foldScan_spent pre ([], [])]
  rfl


set_option maxRecDepth 8000 in
/-- C6 counterexample.  In the concrete run's third state the transfer
transaction `spentTwiceTx` has two outputs; output 0 is spent (it appears as
an input pair in the chain), and `find_utxo` returns the surviving output
(original index 1) at list position 0 with nothing at position 1 — the list
is compacted, not gap-preserving. -/
theorem find_utxo_positions_not_preserved :
    spentTwiceTx.vout.length = 2
      ∧ (spentTwiceTx.id, (0 : Int)) ∈ nonCoinbaseInputPairs sendTwoState.bc.iterBlocks
      ∧ mapGet (sendTwoState.bc.find_utxo) spentTwiceTx.id
        = some ⟨[spentTwiceTx.vout.getD 1 default]⟩
      ∧ (⟨[spentTwiceTx.vout.getD 1 default]⟩ : TXOutputs).outputs.get? 1 = none
      ∧ spentTwiceTx.vout.getD 0 default ≠ spentTwiceTx.vout.getD 1 default :=
  ⟨by decide, by decide, by decide, by decide, by decide⟩

set_option maxRecDepth 8000 in
/-- Witness for the amended C6 at the concrete run's third state. -/
theorem find_utxo_compacts_witness :
    mapGet (sendTwoState.bc.find_utxo) spentTwiceTx.id
        = (if survivingOutputs c6Pre spentTwiceTx = [] then none
           else some ⟨survivingOutputs c6Pre spentTwiceTx⟩)
      ∧ survivingOutputs c6Pre spentTwiceTx = [spentTwiceTx.vout.getD 1 default] :=
  ⟨find_utxo_compacts sendTwoState.bc c6Pre c6Post spentTwiceTx (by decide) (by decide),
   by decide⟩

/-! ### C7: reindex faithfulness -/

theorem mapGet_mem {a : Type} :
    ∀ (m : List (String × a)) (k : String) (v : a), mapGet m k = some v → (k, v) ∈ m := by
  intro m
  induction m with
  | nil => intro k v h; cases h
  | cons p rest ih =>
    intro k v h
    simp only [mapGet, List.find?] at h
    cases hc : (p.1 == k) with
    | true =>
      rw [hc] at h
      simp only [Option.map_some] at h
      injection h with h2
      have hk : p.1 = k := beq_iff_eq.mp hc
      have hp : p = (k, v) := by
        cases p
        exact Prod.mk.injEq _ _ _ _ ▸ ⟨hk, h2⟩
      rw [← hp]
      exact List.mem_cons_self _ _
    | false =>
      rw [hc] at h
      exact List.mem_cons_of_mem _ (ih k v h)

theorem mapGet_none_key {a : Type} :
    ∀ (m : List (String × a)) (k : String), mapGet m k = none ↔ k ∉ m.map Prod.fst := by
  intro m
  induction m with
  | nil => intro k; simp [mapGet, List.find?]
  | cons p rest ih =>
    intro k
    simp only [mapGet, List.find?, List.map_cons, List.mem_cons]
    cases hc : (p.1 == k) with
    | true =>
      simp only [Option.map_some]
      constructor
      · intro h; cases h
      · intro h
        exact absurd (beq_iff_eq.mp hc) (fun he => h (Or.inl he.symm))
    | false =>
      have := ih k
      simp only [mapGet] at this
      rw [this]
      constructor
      · intro h hm
        cases hm with
        | inl he => exact absurd (beq_iff_eq.mpr he.symm) (by rw [hc]; simp)
        | inr hm2 => exact h hm2
      · intro h hm
        exact h (Or.inr hm)

theorem utxoPush_keys_mem :
    ∀ (u : List (String × TXOutputs)) (k : String) (o : TXOutput) (k1 : String),
      k1 ∈ (utxoPush u k o).map Prod.fst ↔ (k1 ∈ u.map Prod.fst ∨ k1 = k) := by
  intro u
  induction u with
  | nil =>
    intro k o k1
    simp [utxoPush, eq_comm]
  | cons p rest ih =>
    intro k o k1
    simp only [utxoPush]
    by_cases hpk : p.1 = k
    · rw [if_pos hpk]
      simp only [List.map_cons, List.mem_cons]
      constructor
      · intro h
        cases h with
        | inl he => exact Or.inl (Or.inl he)
        | inr hm => exact Or.inl (Or.inr hm)
      · intro h
        cases h with
        | inl h2 =>
          cases h2 with
          | inl he => exact Or.inl he
          | inr hm => exact Or.inr hm
        | inr he => exact Or.inl (by rw [he, ← hpk])
    · rw [if_neg hpk]
      simp only [List.map_cons, List.mem_cons, ih]
      tauto

theorem utxoPush_keys_nodup :
    ∀ (u : List (String × TXOutputs)) (k : String) (o : TXOutput),
      (u.map Prod.fst).Nodup → ((utxoPush u k o).map Prod.fst).Nodup := by
  intro u
  induction u with
  | nil => intro k o _; simp [utxoPush]
  | cons p rest ih =>
    intro k o hnd
    have hnd1 := List.nodup_cons.mp hnd
    simp only [utxoPush]
    by_cases hpk : p.1 = k
    · rw [if_pos hpk]
      exact hnd
    · rw [if_neg hpk]
      simp only [List.map_cons, List.nodup_cons]
      constructor
      · intro hm
        rcases (utxoPush_keys_mem rest k o p.1).mp hm with hm1 | hm2
        · exact hnd1.1 hm1
        · exact hpk hm2
      · exact ih k o hnd1.2

theorem scanOut_keys_nodup (spent : List (String × List Int)) (txid : String) :
    ∀ (outs : List TXOutput) (n : Nat) (u : List (String × TXOutputs)),
      (u.map Prod.fst).Nodup → ((scanOutputsFrom spent txid u n outs).map Prod.fst).Nodup := by
  intro outs
  induction outs with
  | nil => intro n u h; exact h
  | cons o rest ih =>
    intro n u hnd
    simp only [scanOutputsFrom]
    by_cases hk : keepOutput spent txid n = true
    · rw [if_pos hk]
      exact ih (n + 1) _ (utxoPush_keys_nodup u txid o hnd)
    · rw [if_neg hk]
      exact ih (n + 1) u hnd

theorem foldScan_keys_nodup :
    ∀ (ts : List Transaction) (st : List (String × TXOutputs) × List (String × List Int)),
      (st.1.map Prod.fst).Nodup → (((ts.foldl scanTx st).1).map Prod.fst).Nodup := by
  intro ts
  induction ts with
  | nil => intro st h; exact h
  | cons t rest ih =>
    intro st hnd
    simp only [List.foldl]
    exact ih (scanTx st t) (scanOut_keys_nodup st.2 t.id t.vout 0 st.1 hnd)

theorem findUtxo_keys_nodup (bc : Blockchain) :
    ((bc.find_utxo).map Prod.fst).Nodup := by
  rw [find_utxo_as_flat]
  exact foldScan_keys_nodup (chainTransactions bc) ([], []) (by simp)

theorem dbInsert_perm :
    ∀ (db : UtxoDb) (k : String) (v : TXOutputs), k ∉ db.map Prod.fst →
      (dbInsertSorted db k v).Perm ((k, v) :: db) := by
  intro db
  induction db with
  | nil => intro k v _; simp [dbInsertSorted]
  | cons p rest ih =>
    intro k v hk
    have hk1 : k ≠ p.1 := by
      intro he
      exact hk (by rw [he]; exact List.mem_cons_self _ _)
    have hk2 : k ∉ rest.map Prod.fst := fun hm => hk (List.mem_cons_of_mem _ hm)
    simp only [dbInsertSorted]
    rw [if_neg hk1]
    by_cases hle : bytesLe (strBytes k) (strBytes p.1) = true
    · rw [if_pos hle]
    · rw [if_neg hle]
      refine List.Perm.trans (List.Perm.cons p (ih k v hk2)) ?_
      exact List.Perm.swap (k, v) p rest

theorem foldInsert_perm :
    ∀ (l acc : UtxoDb), (l.map Prod.fst).Nodup →
      (∀ x ∈ l.map Prod.fst, x ∉ acc.map Prod.fst) →
      (l.foldl (fun db p => dbInsertSorted db p.1 p.2) acc).Perm (acc ++ l) := by
  intro l
  induction l with
  | nil => intro acc _ _; simp
  | cons p rest ih =>
    intro acc hnd hdis
    rw [List.map_cons] at hnd
    have hnd1 := List.nodup_cons.mp hnd
    have hpacc : p.1 ∉ acc.map Prod.fst :=
      hdis p.1 (by simp)
    have hstep : (dbInsertSorted acc p.1 p.2).Perm ((p.1, p.2) :: acc) :=
      dbInsert_perm acc p.1 p.2 hpacc
    have hkeys : ((dbInsertSorted acc p.1 p.2).map Prod.fst).Perm ((p.1 :: acc.map Prod.fst)) := by
      have := hstep.map Prod.fst
      simpa using this
    have hdis2 : ∀ x ∈ rest.map Prod.fst, x ∉ (dbInsertSorted acc p.1 p.2).map Prod.fst := by
      intro x hx hmem
      have hx2 := hkeys.mem_iff.mp hmem
      cases hx2 with
      | head => exact hnd1.1 hx
      | tail _ hm => exact hdis x (by simp [hx]) hm
    simp only [List.foldl]
    refine List.Perm.trans (ih (dbInsertSorted acc p.1 p.2) hnd1.2 hdis2) ?_
    refine List.Perm.trans (List.Perm.append_right rest hstep) ?_
    have : ((p.1, p.2) : String × TXOutputs) = p := rfl
    rw [this]
    exact (List.perm_middle).symm

theorem mapGet_perm_eq {a : Type} (m1 m2 : List (String × a))
    (hp : m1.Perm m2) (hnd : (m2.map Prod.fst).Nodup) (k : String) :
    mapGet m1 k = mapGet m2 k := by
  cases h1 : mapGet m1 k with
  | some v =>
    have hm := mapGet_mem m1 k v h1
    exact (mapGetOfMem m2 k v hnd (hp.mem_iff.mp hm)).symm
  | none =>
    cases h2 : mapGet m2 k with
    | none => rfl
    | some v =>
      have hm := mapGet_mem m2 k v h2
      have hk1 : k ∉ m1.map Prod.fst := (mapGet_none_key m1 k).mp h1
      exact absurd (List.mem_map.mpr ⟨(k, v), hp.mem_iff.mpr hm, rfl⟩) hk1

/-- C7.  After `reindex()`, the UTXO store holds exactly the records of
`blockchain.find_utxo()`: the entry lists are permutations of each other,
every lookup agrees, and the stores coincide as multisets of
`(txid, output)` pairs. -/
theorem reindex_faithful (bc : Blockchain) :
    (UTXOSet.reindex bc).Perm bc.find_utxo
      ∧ (∀ k, mapGet (UTXOSet.reindex bc) k = mapGet bc.find_utxo k)
      ∧ (utxoPairs (UTXOSet.reindex bc)).Perm (utxoPairs bc.find_utxo) := by
  have hperm : (UTXOSet.reindex bc).Perm bc.find_utxo := by
    unfold UTXOSet.reindex
    have := foldInsert_perm bc.find_utxo [] (findUtxo_keys_nodup bc) (by simp)
    simpa using this
  refine ⟨hperm, ?_, ?_⟩
  · intro k
    exact mapGet_perm_eq _ _ hperm (findUtxo_keys_nodup bc) k
  · have h1 : utxoPairs (UTXOSet.reindex bc)
        = (UTXOSet.reindex bc).flatMap (fun p => p.2.outputs.map (fun o => (p.1, o))) := rfl
    have h2 : utxoPairs bc.find_utxo
        = (bc.find_utxo).flatMap (fun p => p.2.outputs.map (fun o => (p.1, o))) := rfl
    rw [h1, h2]
    exact hperm.flatMap_right _
